import Mathlib

/-!
Shallow embedding of the NAVER book ingestion pipeline
(src/collect.py and src/collect_manual.py) and proofs about the
specification's claims.

Modelling conventions:
* Timestamps are `Int` values at one-second granularity, matching
  `int(now.timestamp())` in the source; a `datetime` value and the integer
  version derived from it at the same instant are the same number.
* A JSON item field that is absent or null is `none`; a present string is
  `some s`.  `it.get(f) or ""` therefore maps `none` and `some ""` to `""`.
* External effects are an explicit environment `FetchEnv`: the HTTP fetch
  result per (keyword, sort, start, display), the wall clock observed while
  processing a page, the uuid7 generator, and `random.choice` of a sort.
  A transport exception from `requests.get` is `FetchResult.net_fail` and
  surfaces as `Except.error` because the source has no try/except there.
* The ClickHouse table is a pure list of `StoreRow`; reads are pure queries
  over that list.  The identity queries of both scripts are translated row
  for row (quote stripping, `ORDER BY ... LIMIT 1 BY isbn` as a per-key
  argmax with earlier rows winning ties, the manual script's unordered
  `dict(zip(...))` with later rows overwriting earlier ones).
* `int(x)` on a decimal string is `pyParseInt`; a non-numeric string
  raises in Python and is `Except.error` here.
-/

namespace NB

/-- A value stored in an output row dict: string, integer, null, or a
timestamp (a `datetime` in the source). -/
inductive Value where
  | vStr (s : String)
  | vInt (n : Int)
  | vNull
  | vTime (t : Int)
deriving DecidableEq, Repr

/-- An item of the NAVER book API response.  `none` models an absent or
null JSON field. -/
structure Item where
  title : Option String := none
  link : Option String := none
  image : Option String := none
  author : Option String := none
  discount : Option String := none
  publisher : Option String := none
  isbn : Option String := none
  description : Option String := none
  pubdate : Option String := none
deriving DecidableEq, Repr

/-- A persisted row of the `raw_naver` table, restricted to the columns the
collectors read back.  When the real table lacks the `version` column the
field is simply never consulted (`orderKey` checks the column set first). -/
structure StoreRow where
  isbn : String
  uuid : String
  created_at : Int
  created_log : String
  updated_at : Int
  version : Int
deriving DecidableEq, Repr

/-- The identity fields carried forward for a resolved natural key
(`build_existing_map` result values in collect.py). -/
structure Existing where
  uuid : String
  created_at : Int
  created_log : String
deriving DecidableEq, Repr

/-- A row of the term-sampling query `SELECT title, author, publisher`. -/
structure SampleRow where
  title : Option String := none
  author : Option String := none
  publisher : Option String := none
deriving DecidableEq, Repr

/-- Result of one `requests.get` call: a transport exception, or a response
with a status code and the parsed `items` list. -/
inductive FetchResult where
  | net_fail
  | resp (status : Nat) (items : List Item)
deriving DecidableEq, Repr

/-- The ambient effects of a run: HTTP responses per
(keyword, sort, start, display), the clock observed while processing the
page fetched at (sort, start), the uuid7 generator (indexed by the page and
the item position), and the `random.choice(["sim", "date"])` outcome per
term. -/
structure FetchEnv where
  fetch : String → String → Nat → Nat → FetchResult
  now : String → Nat → Int
  uuidGen : String → Nat → Nat → String
  sortChoice : String → String

/-- An output row as built by the collectors: an ordered dict. -/
abbrev Drow := List (String × Value)

/-- Trace of one page request: the sort and offset requested, the items the
fetch returned, and the (schema-projected) rows handed to `insert_df`
(empty when nothing was written for the page). -/
structure PageTrace where
  sort : String
  start : Nat
  items : List Item
  write : List Drow
deriving DecidableEq, Repr

/-- Python `str.strip()` as a computation on the character list (the
library's `String.trim` does not reduce in the kernel): drop whitespace
from both ends. -/
def pyStrip (s : String) : String :=
  String.mk (((s.data.dropWhile Char.isWhitespace).reverse.dropWhile
    Char.isWhitespace).reverse)

/-- Python `str.lower()` on the ASCII range. -/
def pyLower (s : String) : String :=
  String.mk (s.data.map Char.toLower)

/-- A decimal digit's value. -/
def pyDigit (c : Char) : Option Nat :=
  if 48 ≤ c.toNat ∧ c.toNat ≤ 57 then some (c.toNat - 48) else none

/-- Accumulate decimal digits; `none` on any non-digit. -/
def pyParseNatAux : List Char → Nat → Option Nat
  | [], acc => some acc
  | c :: rest, acc =>
      match pyDigit c with
      | none => none
      | some d => pyParseNatAux rest (acc * 10 + d)

/-- Parse a nonempty all-digit character list. -/
def pyParseNat (l : List Char) : Option Nat :=
  match l with
  | [] => none
  | _ => pyParseNatAux l 0

/-- Python `int(...)` on the canonical decimal strings the API produces:
an optional minus sign followed by digits; `none` models the `ValueError`
raise on anything else. -/
def pyParseInt (s : String) : Option Int :=
  match s.data with
  | [] => none
  | c :: rest =>
      if c = Char.ofNat 45 then (pyParseNat rest).map (fun n => -(n : Int))
      else (pyParseNat s.data).map (fun n => (n : Int))

/-- Split a character list on a separator character, Python `split`. -/
def splitOnCharAux (c : Char) : List Char → List (List Char)
  | [] => [[]]
  | x :: rest =>
      match splitOnCharAux c rest with
      | [] => [[]]
      | h :: t => if x = c then [] :: h :: t else (x :: h) :: t

/-- Python `v.split("^")`. -/
def splitCaret (s : String) : List String :=
  (splitOnCharAux (Char.ofNat 94) s.data).map String.mk

/-- Python `tag.startswith("NN")`. -/
def startsWithNN (tag : String) : Bool :=
  match tag.data with
  | c1 :: c2 :: _ => c1 = Char.ofNat 78 && c2 = Char.ofNat 78
  | _ => false

/-- Python `it.get(field) or ""`: absent, null and empty all normalize to `""`. -/
def textOr (v : Option String) : String :=
  match v with
  | none => ""
  | some s => s

/-- Python `int(it["discount"]) if it.get("discount") else None`: absent, null and
empty (falsy) give null; otherwise `int(...)`, which raises on a
non-numeric string. -/
def discountVal (v : Option String) : Except Unit (Option Int) :=
  match v with
  | none => Except.ok none
  | some s =>
      if s = "" then Except.ok none
      else
        match pyParseInt s with
        | some n => Except.ok (some n)
        | none => Except.error ()

/-- Embed an optional discount into a row value. -/
def discountValue (d : Option Int) : Value :=
  match d with
  | none => Value.vNull
  | some n => Value.vInt n

/-- Python `it.get("isbn")` followed by the truthiness test used both by
`batch_isbns` and by the per-item `if not isbn: continue` guard. -/
def itemKey (it : Item) : Option String :=
  match it.isbn with
  | none => none
  | some s => if s = "" then none else some s

/-- The single-quote character, written by code point. -/
def quoteChar : Char := Char.ofNat 39

/-- Remove every single quote, the `i.replace` of `build_existing_map`. -/
def stripQuotes (s : String) : String :=
  String.mk (s.data.filter (fun c => c ≠ quoteChar))

/-- Whether a string contains a single quote. -/
def hasQuote (s : String) : Bool :=
  s.data.any (fun c => c = quoteChar)

/-- Model of `sanitize_keyword` of collect.py.  `fb` is the `random.choice(fallback)`
outcome used when the input is missing or blank. -/
def sanitize_keyword (fb : String) (keyword : Option String) : String :=
  match keyword with
  | none => fb
  | some s =>
      let t := pyStrip s
      if t = "" then fb else t

/-- Model of `filter_row_by_existing_columns`: keep only the fields whose names are
in the destination column set `cols` (`TABLE_COLUMNS`). -/
def filter_row_by_existing_columns (cols : List String) (row : Drow) : Drow :=
  row.filter (fun kv => cols.contains kv.1)

/-- Python `dict(zip(ks, vs)).get(k)`: the LAST pair with key `k` wins. -/
def dictGet (l : List (String × String)) (k : String) : Option String :=
  (l.reverse.find? (fun kv => kv.1 = k)).map (fun kv => kv.2)

/-- The sort key of collect.py's identity query:
`version DESC` when the table has a `version` column, else
`created_at DESC`. -/
def orderKey (cols : List String) (r : StoreRow) : Int :=
  if cols.contains "version" then r.version else r.created_at

/-- The query clause `ORDER BY key DESC LIMIT 1 BY isbn` applied to the rows of one key:
the row with the maximal key; among equals the earlier row wins. -/
def argmaxBy (f : StoreRow → Int) : List StoreRow → Option StoreRow
  | [] => none
  | r :: rs =>
      match argmaxBy f rs with
      | none => some r
      | some b => if f b ≤ f r then some r else some b

/-- Model of `build_existing_map` of collect.py: batch identity resolution.  Keys are
quote-stripped before querying; the result is keyed by the isbn values the
store returns; at most one row per key, chosen by `orderKey`. -/
def build_existing_map (cols : List String) (store : List StoreRow)
    (isbns : List String) : List (String × Existing) :=
  let good := isbns.filter (fun i => pyStrip i ≠ "")
  if good.isEmpty then []
  else
    let safe := good.map stripQuotes
    let matching := store.filter (fun r => safe.contains r.isbn)
    let keys := (matching.map (fun r => r.isbn)).dedup
    keys.filterMap (fun k =>
      (argmaxBy (orderKey cols) (matching.filter (fun r => r.isbn = k))).map
        (fun r => (k, Existing.mk r.uuid r.created_at r.created_log)))

/-- Model of `build_uuid_map` of collect_manual.py: no quote stripping, no ordering;
`dict(zip(df.isbn, df.uuid))` over at most 100000 matching rows, so for a
duplicated key the last returned row wins. -/
def build_uuid_map (store : List StoreRow) (isbns : List String) :
    List (String × String) :=
  let good := isbns.filter (fun i => pyStrip i ≠ "")
  if good.isEmpty then []
  else
    ((store.filter (fun r => good.contains r.isbn)).take 100000).map
      (fun r => (r.isbn, r.uuid))

/-- The row dict built per item in collect.py's `_collect_for_term`,
before schema projection.  `freshU` is the `uuid6.uuid7()` drawn when the
key did not resolve; `now` is both `created_at`/`updated_at` and, as an
integer, `version`. -/
def mergeAutoRow (emap : List (String × Existing)) (freshU : String)
    (now : Int) (mode term sort : String) (k : String) (it : Item) :
    Except Unit Drow :=
  let existing := emap.lookup k
  let u := match existing with
    | some e => e.uuid
    | none => freshU
  let cat := match existing with
    | some e => e.created_at
    | none => now
  let clog := match existing with
    | some e => e.created_log
    | none => "github_actions_auto"
  match discountVal it.discount with
  | Except.error e => Except.error e
  | Except.ok dv =>
    Except.ok
      [("uuid", Value.vStr u),
       ("version", Value.vInt now),
       ("created_at", Value.vTime cat),
       ("created_log", Value.vStr clog),
       ("updated_at", Value.vTime now),
       ("updated_log",
         Value.vStr ("auto_upsert|mode=" ++ mode ++ "|term=" ++ term
           ++ "|sort=" ++ sort)),
       ("title", Value.vStr (textOr it.title)),
       ("link", Value.vStr (textOr it.link)),
       ("image", Value.vStr (textOr it.image)),
       ("author", Value.vStr (textOr it.author)),
       ("discount", discountValue dv),
       ("publisher", Value.vStr (textOr it.publisher)),
       ("isbn", Value.vStr k),
       ("description", Value.vStr (textOr it.description)),
       ("pubdate", Value.vStr (textOr it.pubdate))]

/-- The row dict built per item in collect_manual.py's `collect_manual`:
only the uuid is reused for a resolved key; `created_at`/`created_log` are
always the current time and the fixed manual tag. -/
def mergeManualRow (umap : List (String × String)) (freshU : String)
    (now : Int) (keyword sort : String) (k : String) (it : Item) :
    Except Unit Drow :=
  let u := (dictGet umap k).getD freshU
  match discountVal it.discount with
  | Except.error e => Except.error e
  | Except.ok dv =>
    Except.ok
      [("uuid", Value.vStr u),
       ("version", Value.vInt now),
       ("created_at", Value.vTime now),
       ("created_log", Value.vStr "github_actions_manual"),
       ("updated_at", Value.vTime now),
       ("updated_log",
         Value.vStr ("manual_upsert|keyword=" ++ keyword ++ "|sort=" ++ sort)),
       ("title", Value.vStr (textOr it.title)),
       ("link", Value.vStr (textOr it.link)),
       ("image", Value.vStr (textOr it.image)),
       ("author", Value.vStr (textOr it.author)),
       ("discount", discountValue dv),
       ("publisher", Value.vStr (textOr it.publisher)),
       ("isbn", Value.vStr k),
       ("description", Value.vStr (textOr it.description)),
       ("pubdate", Value.vStr (textOr it.pubdate))]

/-- The per-page `for it in items` loop shared by both scripts: skip items
with a falsy isbn, merge the rest in order, propagating a raised
exception.  The index threads the uuid generator. -/
def pageRows (merge : Nat → String → Item → Except Unit Drow) :
    Nat → List Item → Except Unit (List Drow)
  | _, [] => Except.ok []
  | i, it :: rest =>
      match itemKey it with
      | none => pageRows merge (i + 1) rest
      | some k =>
          match merge i k it with
          | Except.error e => Except.error e
          | Except.ok r =>
              match pageRows merge (i + 1) rest with
              | Except.error e => Except.error e
              | Except.ok rs => Except.ok (r :: rs)

/-- Model of `fetch_items`: a non-200 status returns `[]`; a transport exception
propagates (the source wraps nothing in try/except). -/
def fetch_items (env : FetchEnv) (keyword sort : String)
    (start display : Nat) : Except Unit (List Item) :=
  match env.fetch keyword sort start display with
  | FetchResult.net_fail => Except.error ()
  | FetchResult.resp status items =>
      if status = 200 then Except.ok items else Except.ok []

/-- The `for sort in sorts` loop of collect.py's `_collect_for_term`: one
single request per sort at offset 1; an empty page is skipped (no write). -/
def collectSortsAux (env : FetchEnv) (cols : List String)
    (store : List StoreRow) (term mode : String) (display : Nat) :
    List String → Except Unit (List PageTrace)
  | [] => Except.ok []
  | sort :: rest =>
      match fetch_items env term sort 1 display with
      | Except.error e => Except.error e
      | Except.ok items =>
          if items.isEmpty then
            match collectSortsAux env cols store term mode display rest with
            | Except.error e => Except.error e
            | Except.ok trs => Except.ok (PageTrace.mk sort 1 items [] :: trs)
          else
            let now := env.now sort 1
            let emap := build_existing_map cols store (items.filterMap itemKey)
            match pageRows (fun i k it =>
                (mergeAutoRow emap (env.uuidGen sort 1 i) now mode term sort
                  k it).map (filter_row_by_existing_columns cols)) 0 items with
            | Except.error e => Except.error e
            | Except.ok rows =>
                match collectSortsAux env cols store term mode display rest with
                | Except.error e => Except.error e
                | Except.ok trs =>
                    Except.ok (PageTrace.mk sort 1 items rows :: trs)

/-- Model of the source `_collect_for_term` (leading underscore dropped): one
randomly chosen sort when `REQS_PER_TERM <= 1`, else both sorts. -/
def collect_for_term (env : FetchEnv) (cols : List String)
    (store : List StoreRow) (reqs display : Nat) (term mode : String) :
    Except Unit (List PageTrace) :=
  collectSortsAux env cols store term mode display
    (if reqs ≤ 1 then [env.sortChoice term] else ["sim", "date"])

/-- The `while start <= 1000` pagination loop of `collect_manual`, one sort
at a time.  The fuel argument only bounds the recursion depth: from
`start = 1` the guard `start ≤ 1000` admits at most 10 iterations, so the
fuel of 11 supplied by `manualLoop` is never exhausted
(`manualLoopAux_fuel_irrel` below makes that formal). -/
def manualLoopAux (env : FetchEnv) (cols : List String)
    (store : List StoreRow) (keyword sort : String) :
    Nat → Nat → Except Unit (List PageTrace)
  | 0, _ => Except.ok []
  | Nat.succ fuel, start =>
      if start ≤ 1000 then
        match fetch_items env keyword sort start 100 with
        | Except.error e => Except.error e
        | Except.ok items =>
            if items.isEmpty then Except.ok [PageTrace.mk sort start items []]
            else
              let now := env.now sort start
              let umap := build_uuid_map store (items.filterMap itemKey)
              match pageRows (fun i k it =>
                  (mergeManualRow umap (env.uuidGen sort start i) now keyword
                    sort k it).map (filter_row_by_existing_columns cols))
                  0 items with
              | Except.error e => Except.error e
              | Except.ok rows =>
                  if items.length < 100 then
                    Except.ok [PageTrace.mk sort start items rows]
                  else
                    match manualLoopAux env cols store keyword sort fuel
                        (start + 100) with
                    | Except.error e => Except.error e
                    | Except.ok rest =>
                        Except.ok (PageTrace.mk sort start items rows :: rest)
      else Except.ok []

/-- The pagination loop for one sort, started at offset 1 as in the
source. -/
def manualLoop (env : FetchEnv) (cols : List String) (store : List StoreRow)
    (keyword sort : String) : Except Unit (List PageTrace) :=
  manualLoopAux env cols store keyword sort 11 1

/-- Model of `collect_manual`: raise on an empty keyword, then run the full
pagination loop for "sim" and then for "date". -/
def collect_manual (env : FetchEnv) (cols : List String)
    (store : List StoreRow) (keyword : String) :
    Except Unit (List PageTrace) :=
  if keyword = "" then Except.error ()
  else
    match manualLoop env cols store keyword "sim" with
    | Except.error e => Except.error e
    | Except.ok t1 =>
        match manualLoop env cols store keyword "date" with
        | Except.error e => Except.error e
        | Except.ok t2 => Except.ok (t1 ++ t2)

/-- The fixed fallback vocabulary of collect.py. -/
def fallbackTerms : List String := ["통계", "데이터", "Statistics", "Data"]

/-- Model of the source `_sample_df_for_terms` (leading underscore dropped): a failed sampling
query is caught and becomes an empty frame. -/
def sample_df_for_terms (q : Except Unit (List SampleRow)) : List SampleRow :=
  match q with
  | Except.error _ => []
  | Except.ok d => d

/-- Model of `_extract_authors`: split each author value on `^`, trim, keep parts of
length at least 2, deduplicate (the source accumulates into a set). -/
def extract_authors (vals : List (Option String)) : List String :=
  (vals.foldr (fun v acc =>
    match v with
    | none => acc
    | some s =>
        if pyStrip s = "" then acc
        else
          ((splitCaret (pyStrip s)).filterMap (fun p =>
            if 2 ≤ (pyStrip p).length then some (pyStrip p) else none)) ++ acc) []).dedup

/-- Model of `_extract_publishers`: trim, keep values of length at least 2. -/
def extract_publishers (vals : List (Option String)) : List String :=
  (vals.filterMap (fun v =>
    match v with
    | none => none
    | some s => if 2 ≤ (pyStrip s).length then some (pyStrip s) else none)).dedup

/-- Whether a title contains a Hangul syllable, `re.search("[가-힣]", t)`. -/
def hasHangul (s : String) : Bool :=
  s.data.any (fun c => 0xAC00 ≤ c.toNat && c.toNat ≤ 0xD7A3)

/-- Model of `_extract_keywords_from_titles`.  The external morphology is abstract:
`tokKo` is `okt.nouns`, `tokEn` is `pos_tag(word_tokenize(...))`. -/
def extract_keywords_from_titles (tokKo : String → List String)
    (tokEn : String → List (String × String))
    (titles : List (Option String)) : List String :=
  (titles.foldr (fun v acc =>
    match v with
    | none => acc
    | some s =>
        let t := pyStrip s
        if t = "" then acc
        else if hasHangul t then
          ((tokKo t).filterMap (fun n =>
            if 2 ≤ (pyStrip n).length then some (pyStrip n) else none)) ++ acc
        else
          ((tokEn t).filterMap (fun wt =>
            if startsWithNN wt.2 then
              (if 4 ≤ (pyStrip wt.1).length then some (pyStrip wt.1) else none)
            else none)) ++ acc) []).dedup

/-- Model of `pick_unique_terms`.  Here `shuffle` models the `random` permutations
(`random.sample` of the fallback is the prefix of a permutation,
`random.shuffle` of the pool is a permutation); `fb` is the
`random.choice(fallback)` outcome inside `sanitize_keyword`; `q` is the
sampling query result, `Except.error` for an unreachable store. -/
def pick_unique_terms (tokKo : String → List String)
    (tokEn : String → List (String × String))
    (shuffle : List String → List String) (fb : String)
    (q : Except Unit (List SampleRow)) (mode : String) (batch_size : Nat) :
    List String :=
  let df := sample_df_for_terms q
  if df.isEmpty then
    (shuffle fallbackTerms).take (min fallbackTerms.length batch_size)
  else
    let m := pyLower (pyStrip mode)
    let pool :=
      if m = "author" then extract_authors (df.map (fun r => r.author))
      else if m = "publisher" then
        extract_publishers (df.map (fun r => r.publisher))
      else extract_keywords_from_titles tokKo tokEn
        (df.map (fun r => r.title))
    let pool2 := if pool.isEmpty then fallbackTerms else pool
    let pool_list := shuffle pool2
    let picked := pool_list.take (min batch_size pool_list.length)
    picked.map (fun x => sanitize_keyword fb (some x))

/-- The `for term in terms` loop of collect.py's batch branch. -/
def collectTerms (env : FetchEnv) (cols : List String)
    (store : List StoreRow) (reqs display : Nat) (mode : String) :
    List String → Except Unit (List (String × List PageTrace))
  | [] => Except.ok []
  | term :: rest =>
      match collect_for_term env cols store reqs display term mode with
      | Except.error e => Except.error e
      | Except.ok tr =>
          match collectTerms env cols store reqs display mode rest with
          | Except.error e => Except.error e
          | Except.ok rs => Except.ok ((term, tr) :: rs)

/-- Model of `collect` of collect.py.  Here `genkw` is the value returned by
`generate_keyword()` in the legacy branch; `shuffle1`/`shuffle2` are the
two `random` permutations used by `pick_unique_terms` and by the final
`random.shuffle(terms)`. -/
def collect (env : FetchEnv) (cols : List String) (store : List StoreRow)
    (reqs display batch : Nat) (mode fb genkw : String)
    (shuffle1 shuffle2 : List String → List String)
    (tokKo : String → List String)
    (tokEn : String → List (String × String))
    (q : Except Unit (List SampleRow)) :
    Except Unit (List (String × List PageTrace)) :=
  if mode = "mixed" then
    let term := sanitize_keyword fb (some genkw)
    match collect_for_term env cols store reqs display term mode with
    | Except.error e => Except.error e
    | Except.ok tr => Except.ok [(term, tr)]
  else
    collectTerms env cols store reqs display mode
      (shuffle2 (pick_unique_terms tokKo tokEn shuffle1 fb q mode batch))

/-! ### Derived predicates and concrete fixtures -/

/-- The relation between consecutive page requests of the manual pagination
loop: the next offset is the previous plus the page size, the previous page
was full, and the next offset still satisfies the `start <= 1000` guard. -/
def pageStep (a b : PageTrace) : Prop :=
  b.start = a.start + 100 ∧ 100 ≤ a.items.length ∧ a.start + 100 ≤ 1000

/-- The API contract that a page never holds more than the requested number
of items (the source requests at most 100 and the API caps a page at
`display` items). -/
def fetchWithinDisplay (env : FetchEnv) : Prop :=
  ∀ (kw sort : String) (start display : Nat),
    match env.fetch kw sort start display with
    | FetchResult.net_fail => True
    | FetchResult.resp _ items => items.length ≤ display

/-- The proposition that row `r` is handed to a batch write by some page of
a successful run of EITHER collector (the manual keyword script or the
batch/mixed collector) under environment `env` and column set `cols`, with
`t` the clock reading observed while processing that page. -/
def writtenWithClock (env : FetchEnv) (cols : List String) (r : Drow)
    (t : Int) : Prop :=
  (∃ (store : List StoreRow) (kw : String) (tr : List PageTrace)
    (p : PageTrace), collect_manual env cols store kw = Except.ok tr ∧
      p ∈ tr ∧ r ∈ p.write ∧ t = env.now p.sort p.start) ∨
  (∃ (store : List StoreRow) (reqs display : Nat) (term mode : String)
    (tr : List PageTrace) (p : PageTrace),
      collect_for_term env cols store reqs display term mode =
        Except.ok tr ∧
      p ∈ tr ∧ r ∈ p.write ∧ t = env.now p.sort p.start)

/-- The row the manual run under `envOne` writes for its single "sim"
page. -/
def rowOneManual : Drow :=
  [("uuid", Value.vStr "U"), ("version", Value.vInt 7),
   ("created_at", Value.vTime 7),
   ("created_log", Value.vStr "github_actions_manual"),
   ("updated_at", Value.vTime 7),
   ("updated_log", Value.vStr "manual_upsert|keyword=kw|sort=sim"),
   ("title", Value.vStr ""), ("link", Value.vStr ""),
   ("image", Value.vStr ""), ("author", Value.vStr ""),
   ("discount", Value.vNull), ("publisher", Value.vStr ""),
   ("isbn", Value.vStr "K"), ("description", Value.vStr ""),
   ("pubdate", Value.vStr "")]

/-- The row the batch run under `env5` writes for its single "sim" page. -/
def rowBatch5 : Drow :=
  [("uuid", Value.vStr "U"), ("version", Value.vInt 4),
   ("created_at", Value.vTime 4),
   ("created_log", Value.vStr "github_actions_auto"),
   ("updated_at", Value.vTime 4),
   ("updated_log", Value.vStr "auto_upsert|mode=m|term=kw|sort=sim"),
   ("title", Value.vStr ""), ("link", Value.vStr ""),
   ("image", Value.vStr ""), ("author", Value.vStr ""),
   ("discount", Value.vNull), ("publisher", Value.vStr ""),
   ("isbn", Value.vStr "K"), ("description", Value.vStr ""),
   ("pubdate", Value.vStr "")]

/-- The selection rule the specification prescribes for a destination with
no version column: prefer the row with the most recent `last_seen_at`
(the `updated_at` column).  Written from the spec's words, for comparison
with what `build_existing_map` actually does. -/
def spec_last_seen_select (store : List StoreRow) (k : String) :
    Option StoreRow :=
  argmaxBy (fun r => r.updated_at) (store.filter (fun r => r.isbn = k))

/-- The full destination column set of the `raw_naver` table. -/
def colsAll : List String :=
  ["uuid", "version", "created_at", "created_log", "updated_at",
   "updated_log", "title", "link", "image", "author", "discount",
   "publisher", "isbn", "description", "pubdate"]

/-- The destination column set of a table created without a `version`
column (spec scenario C). -/
def colsNoVer : List String :=
  ["uuid", "created_at", "created_log", "updated_at", "updated_log",
   "title", "link", "image", "author", "discount", "publisher", "isbn",
   "description", "pubdate"]

/-- A fetched item carrying only the natural key "K". -/
def itemK : Item := { isbn := some "K" }

/-- A fetched item whose discount field is present but empty. -/
def itemD : Item := { isbn := some "K", discount := some "" }

/-- A fetched item with a present, numeric discount. -/
def itemW9 : Item := { isbn := some "K", discount := some "15000" }

/-- A natural key containing a single quote, built by code point:
"K" ++ quote ++ "1". -/
def qk : String := String.mk [Char.ofNat 75, Char.ofNat 39, Char.ofNat 49]

/-- An item whose natural key contains a single quote. -/
def itemQ : Item := { isbn := some qk }

/-- A store holding the quote-stripped variant "K1" of `qk`. -/
def storeQ : List StoreRow :=
  [StoreRow.mk "K1" "OLD" 5 "orig" 6 1]

/-- A store with one historical row for key "K": uuid "A", first seen at
time 5 with provenance "orig". -/
def storeC1 : List StoreRow :=
  [StoreRow.mk "K" "A" 5 "orig" 6 1]

/-- Historical row for "K": first seen early (10), seen last at 100. -/
def rowA3 : StoreRow := StoreRow.mk "K" "A" 10 "p" 100 0

/-- Historical row for "K": first seen later (20), seen last at 50. -/
def rowB3 : StoreRow := StoreRow.mk "K" "B" 20 "q" 50 0

/-- A store with two historical rows for the same key "K". -/
def storeC3 : List StoreRow := [rowA3, rowB3]

/-- Environment: every request answers 200 with a single item for "K";
the clock always reads 50. -/
def env6 : FetchEnv :=
  FetchEnv.mk (fun _ _ _ _ => FetchResult.resp 200 [itemK]) (fun _ _ => 50)
    (fun _ _ _ => "U") (fun _ => "sim")

/-- Environment: the "sim" page holds one item, the "date" page is empty;
the clock always reads 7. -/
def envOne : FetchEnv :=
  FetchEnv.mk
    (fun _ sort _ _ =>
      if sort = "sim" then FetchResult.resp 200 [itemK]
      else FetchResult.resp 200 []) (fun _ _ => 7) (fun _ _ _ => "U")
    (fun _ => "sim")

/-- Environment: the "sim" page holds one item, the "date" page is empty;
the clock always reads 99 and fresh uuids are "F". -/
def envC1 : FetchEnv :=
  FetchEnv.mk
    (fun _ sort _ _ =>
      if sort = "sim" then FetchResult.resp 200 [itemK]
      else FetchResult.resp 200 []) (fun _ _ => 99) (fun _ _ _ => "F")
    (fun _ => "sim")

/-- Environment: the "sim" request fails at the transport level
(the `requests.get` call raises); "date" would answer an empty page. -/
def envC2 : FetchEnv :=
  FetchEnv.mk
    (fun _ sort _ _ =>
      if sort = "sim" then FetchResult.net_fail
      else FetchResult.resp 200 []) (fun _ _ => 0) (fun _ _ _ => "U")
    (fun _ => "sim")

/-- Environment: every request is answered with a non-success status. -/
def envW2 : FetchEnv :=
  FetchEnv.mk (fun _ _ _ _ => FetchResult.resp 500 []) (fun _ _ => 0)
    (fun _ _ _ => "U") (fun _ => "sim")

/-- Environment: every request succeeds with an empty page. -/
def envEmpty : FetchEnv :=
  FetchEnv.mk (fun _ _ _ _ => FetchResult.resp 200 []) (fun _ _ => 0)
    (fun _ _ _ => "U") (fun _ => "sim")

/-- Environment: every request returns one item; the random sort choice is
"sim"; the clock reads 4. -/
def env5 : FetchEnv :=
  FetchEnv.mk (fun _ _ _ _ => FetchResult.resp 200 [itemK]) (fun _ _ => 4)
    (fun _ _ _ => "U") (fun _ => "sim")

/-! ### Support lemmas -/

theorem lookup_eq_none_of_keys_ne {β : Type} (k : String) :
    ∀ l : List (String × β), (∀ kv ∈ l, kv.1 ≠ k) → l.lookup k = none := by
  intro l
  induction l with
  | nil => intro _; rfl
  | cons a rest ih =>
      intro h
      have hne : a.1 ≠ k := h a (List.mem_cons_self a rest)
      have hb : (k == a.1) = false := beq_eq_false_iff_ne.mpr
        (fun he => hne he.symm)
      simp only [List.lookup, hb]
      exact ih fun kv hkv => h kv (List.mem_cons_of_mem a hkv)

theorem filter_row_lookup_of_contains_false (cols : List String) (k : String)
    (hk : cols.contains k = false) (row : Drow) :
    (filter_row_by_existing_columns cols row).lookup k = none := by
  apply lookup_eq_none_of_keys_ne
  intro kv hkv he
  have hkv2 : kv ∈ row.filter (fun kv => cols.contains kv.1) := hkv
  have hmem : cols.contains kv.1 = true := (List.mem_filter.mp hkv2).2
  rw [he, hk] at hmem
  exact Bool.noConfusion hmem

theorem filter_row_lookup_of_contains_true (cols : List String) (k : String)
    (hk : cols.contains k = true) (row : Drow) :
    (filter_row_by_existing_columns cols row).lookup k = row.lookup k := by
  induction row with
  | nil => rfl
  | cons a rest ih =>
      rcases a with ⟨ak, av⟩
      simp only [filter_row_by_existing_columns, List.filter_cons] at ih ⊢
      by_cases hak : k = ak
      · subst hak
        simp only [hk, if_true, List.lookup, beq_self_eq_true]
      · have hbeq : (k == ak) = false := beq_eq_false_iff_ne.mpr hak
        by_cases hc : cols.contains ak = true
        · simp only [hc, if_true, List.lookup, hbeq]
          exact ih
        · have hc2 : cols.contains ak = false := by simpa using hc
          simp only [hc2, Bool.false_eq_true, if_false, List.lookup, hbeq]
          exact ih

theorem filter_row_lookup (cols : List String) (k : String) (row : Drow) :
    (filter_row_by_existing_columns cols row).lookup k =
      if cols.contains k then row.lookup k else none := by
  by_cases hk : cols.contains k = true
  · rw [if_pos hk]
    exact filter_row_lookup_of_contains_true cols k hk row
  · rw [if_neg hk]
    have hk2 : cols.contains k = false := by
      simpa using hk
    exact filter_row_lookup_of_contains_false cols k hk2 row

theorem filter_row_mem_iff (cols : List String) (row : Drow)
    (kv : String × Value) :
    kv ∈ filter_row_by_existing_columns cols row ↔
      kv ∈ row ∧ cols.contains kv.1 = true := by
  simp [filter_row_by_existing_columns, List.mem_filter]

theorem pageRows_mem (merge : Nat → String → Item → Except Unit Drow) :
    ∀ (items : List Item) (i : Nat) (rows : List Drow),
      pageRows merge i items = Except.ok rows →
      ∀ r ∈ rows, ∃ j k it, it ∈ items ∧ itemKey it = some k ∧
        merge j k it = Except.ok r := by
  intro items
  induction items with
  | nil =>
      intro i rows h r hr
      simp only [pageRows] at h
      cases h
      simp at hr
  | cons it rest ih =>
      intro i rows h r hr
      simp only [pageRows] at h
      cases hk : itemKey it with
      | none =>
          simp only [hk] at h
          obtain ⟨j, k, it', h1, h2, h3⟩ := ih (i + 1) rows h r hr
          exact ⟨j, k, it', by simp [h1], h2, h3⟩
      | some k =>
          simp only [hk] at h
          cases hm : merge i k it with
          | error e =>
              simp only [hm] at h
              exact Except.noConfusion h
          | ok r0 =>
              simp only [hm] at h
              cases hrest : pageRows merge (i + 1) rest with
              | error e =>
                  simp only [hrest] at h
                  exact Except.noConfusion h
              | ok rs =>
                  simp only [hrest] at h
                  cases h
                  rcases List.mem_cons.mp hr with hr0 | hrs
                  · subst hr0
                    exact ⟨i, k, it, by simp, hk, hm⟩
                  · obtain ⟨j, k', it', h1, h2, h3⟩ := ih (i + 1) rs hrest r hrs
                    exact ⟨j, k', it', by simp [h1], h2, h3⟩

theorem argmaxBy_eq_none (f : StoreRow → Int) :
    ∀ l : List StoreRow, argmaxBy f l = none → l = [] := by
  intro l
  cases l with
  | nil => intro _; rfl
  | cons a rest =>
      intro h
      simp only [argmaxBy] at h
      cases hrest : argmaxBy f rest with
      | none =>
          simp only [hrest] at h
          exact Option.noConfusion h
      | some b =>
          simp only [hrest] at h
          by_cases hle : f b ≤ f a
          · rw [if_pos hle] at h; exact Option.noConfusion h
          · rw [if_neg hle] at h; exact Option.noConfusion h

theorem argmaxBy_mem (f : StoreRow → Int) :
    ∀ (l : List StoreRow) (r : StoreRow), argmaxBy f l = some r → r ∈ l := by
  intro l
  induction l with
  | nil => intro r h; exact absurd h (by simp [argmaxBy])
  | cons a rest ih =>
      intro r h
      simp only [argmaxBy] at h
      cases hrest : argmaxBy f rest with
      | none =>
          simp only [hrest] at h
          cases h
          simp
      | some b =>
          simp only [hrest] at h
          by_cases hle : f b ≤ f a
          · rw [if_pos hle] at h; cases h; simp
          · rw [if_neg hle] at h
            cases h
            exact List.mem_cons_of_mem a (ih r hrest)

theorem argmaxBy_ge (f : StoreRow → Int) :
    ∀ (l : List StoreRow) (r : StoreRow), argmaxBy f l = some r →
      ∀ x ∈ l, f x ≤ f r := by
  intro l
  induction l with
  | nil => intro r h; exact absurd h (by simp [argmaxBy])
  | cons a rest ih =>
      intro r h x hx
      simp only [argmaxBy] at h
      cases hrest : argmaxBy f rest with
      | none =>
          simp only [hrest] at h
          cases h
          rcases List.mem_cons.mp hx with hx0 | hxs
          · subst hx0; exact le_refl _
          · rw [argmaxBy_eq_none f rest hrest] at hxs
            simp at hxs
      | some b =>
          simp only [hrest] at h
          by_cases hle : f b ≤ f a
          · rw [if_pos hle] at h
            cases h
            rcases List.mem_cons.mp hx with hx0 | hxs
            · subst hx0; exact le_refl _
            · exact le_trans (ih b hrest x hxs) hle
          · rw [if_neg hle] at h
            cases h
            rcases List.mem_cons.mp hx with hx0 | hxs
            · subst hx0; exact le_of_not_le hle
            · exact ih r hrest x hxs

theorem dictGet_mem (l : List (String × String)) (k u : String)
    (h : dictGet l k = some u) : (k, u) ∈ l := by
  unfold dictGet at h
  cases hf : l.reverse.find? (fun kv => kv.1 = k) with
  | none => rw [hf] at h; exact absurd h (by simp)
  | some kv =>
      rw [hf] at h
      have hm := List.mem_of_find?_eq_some hf
      have hp := List.find?_some hf
      simp at h
      have h2 : kv.2 = u := h
      have h1 : kv.1 = k := by simpa using hp
      have : kv = (k, u) := by
        cases kv
        simp_all
      rw [this] at hm
      exact List.mem_reverse.mp hm

theorem hasQuote_stripQuotes (s : String) :
    hasQuote (stripQuotes s) = false := by
  simp only [hasQuote, stripQuotes]
  rw [List.any_eq_false]
  intro c hc
  have hmem : (decide (c ≠ quoteChar)) = true := (List.mem_filter.mp hc).2
  simp at hmem ⊢
  exact hmem

theorem mergeManualRow_fields (umap : List (String × String)) (u : String)
    (now : Int) (kw sort k : String) (it : Item) (raw : Drow)
    (h : mergeManualRow umap u now kw sort k it = Except.ok raw) :
    raw.lookup "uuid" = some (Value.vStr ((dictGet umap k).getD u)) ∧
    raw.lookup "version" = some (Value.vInt now) ∧
    raw.lookup "created_at" = some (Value.vTime now) ∧
    raw.lookup "created_log" = some (Value.vStr "github_actions_manual") ∧
    raw.lookup "updated_at" = some (Value.vTime now) ∧
    raw.lookup "isbn" = some (Value.vStr k) ∧
    raw.lookup "title" = some (Value.vStr (textOr it.title)) ∧
    raw.lookup "link" = some (Value.vStr (textOr it.link)) ∧
    raw.lookup "image" = some (Value.vStr (textOr it.image)) ∧
    raw.lookup "author" = some (Value.vStr (textOr it.author)) ∧
    raw.lookup "publisher" = some (Value.vStr (textOr it.publisher)) ∧
    raw.lookup "description" = some (Value.vStr (textOr it.description)) ∧
    raw.lookup "pubdate" = some (Value.vStr (textOr it.pubdate)) ∧
    ∃ dv, discountVal it.discount = Except.ok dv ∧
      raw.lookup "discount" = some (discountValue dv) := by
  cases hd : discountVal it.discount with
  | error e =>
      simp only [mergeManualRow, hd] at h
      exact Except.noConfusion h
  | ok dv =>
      simp only [mergeManualRow, hd] at h
      injection h with h2
      subst h2
      exact ⟨rfl, rfl, rfl, rfl, rfl, rfl, rfl, rfl, rfl, rfl, rfl, rfl, rfl,
        dv, rfl, rfl⟩

theorem mergeAutoRow_resolved (emap : List (String × Existing))
    (freshU : String) (now : Int) (mode term sort k : String) (it : Item)
    (raw : Drow) (e : Existing) (he : emap.lookup k = some e)
    (h : mergeAutoRow emap freshU now mode term sort k it = Except.ok raw) :
    raw.lookup "uuid" = some (Value.vStr e.uuid) ∧
    raw.lookup "created_at" = some (Value.vTime e.created_at) ∧
    raw.lookup "created_log" = some (Value.vStr e.created_log) ∧
    raw.lookup "version" = some (Value.vInt now) ∧
    raw.lookup "updated_at" = some (Value.vTime now) ∧
    raw.lookup "isbn" = some (Value.vStr k) := by
  cases hd : discountVal it.discount with
  | error e2 =>
      simp only [mergeAutoRow, hd] at h
      exact Except.noConfusion h
  | ok dv =>
      simp only [mergeAutoRow, he, hd] at h
      injection h with h2
      subst h2
      exact ⟨rfl, rfl, rfl, rfl, rfl, rfl⟩

theorem mergeAutoRow_fresh (emap : List (String × Existing))
    (freshU : String) (now : Int) (mode term sort k : String) (it : Item)
    (raw : Drow) (he : emap.lookup k = none)
    (h : mergeAutoRow emap freshU now mode term sort k it = Except.ok raw) :
    raw.lookup "uuid" = some (Value.vStr freshU) ∧
    raw.lookup "created_at" = some (Value.vTime now) ∧
    raw.lookup "created_log" = some (Value.vStr "github_actions_auto") ∧
    raw.lookup "version" = some (Value.vInt now) ∧
    raw.lookup "updated_at" = some (Value.vTime now) ∧
    raw.lookup "isbn" = some (Value.vStr k) := by
  cases hd : discountVal it.discount with
  | error e2 =>
      simp only [mergeAutoRow, hd] at h
      exact Except.noConfusion h
  | ok dv =>
      simp only [mergeAutoRow, he, hd] at h
      injection h with h2
      subst h2
      exact ⟨rfl, rfl, rfl, rfl, rfl, rfl⟩

theorem mergeAutoRow_content (emap : List (String × Existing))
    (freshU : String) (now : Int) (mode term sort k : String) (it : Item)
    (raw : Drow)
    (h : mergeAutoRow emap freshU now mode term sort k it = Except.ok raw) :
    raw.lookup "title" = some (Value.vStr (textOr it.title)) ∧
    raw.lookup "link" = some (Value.vStr (textOr it.link)) ∧
    raw.lookup "image" = some (Value.vStr (textOr it.image)) ∧
    raw.lookup "author" = some (Value.vStr (textOr it.author)) ∧
    raw.lookup "publisher" = some (Value.vStr (textOr it.publisher)) ∧
    raw.lookup "description" = some (Value.vStr (textOr it.description)) ∧
    raw.lookup "pubdate" = some (Value.vStr (textOr it.pubdate)) ∧
    ∃ dv, discountVal it.discount = Except.ok dv ∧
      raw.lookup "discount" = some (discountValue dv) := by
  cases hd : discountVal it.discount with
  | error e2 =>
      simp only [mergeAutoRow, hd] at h
      exact Except.noConfusion h
  | ok dv =>
      cases he : emap.lookup k with
      | none =>
          simp only [mergeAutoRow, he, hd] at h
          injection h with h2
          subst h2
          exact ⟨rfl, rfl, rfl, rfl, rfl, rfl, rfl, dv, rfl, rfl⟩
      | some e =>
          simp only [mergeAutoRow, he, hd] at h
          injection h with h2
          subst h2
          exact ⟨rfl, rfl, rfl, rfl, rfl, rfl, rfl, dv, rfl, rfl⟩

theorem mergeAutoRow_stamp (emap : List (String × Existing))
    (freshU : String) (now : Int) (mode term sort k : String) (it : Item)
    (raw : Drow)
    (h : mergeAutoRow emap freshU now mode term sort k it = Except.ok raw) :
    raw.lookup "version" = some (Value.vInt now) ∧
    raw.lookup "updated_at" = some (Value.vTime now) := by
  cases hd : discountVal it.discount with
  | error e2 =>
      simp only [mergeAutoRow, hd] at h
      exact Except.noConfusion h
  | ok dv =>
      cases he : emap.lookup k with
      | none =>
          simp only [mergeAutoRow, he, hd] at h
          injection h with h2
          subst h2
          exact ⟨rfl, rfl⟩
      | some e =>
          simp only [mergeAutoRow, he, hd] at h
          injection h with h2
          subst h2
          exact ⟨rfl, rfl⟩

theorem manualLoopAux_pages (env : FetchEnv) (cols : List String)
    (store : List StoreRow) (kw sort : String) :
    ∀ (fuel start : Nat) (tr : List PageTrace),
      manualLoopAux env cols store kw sort fuel start = Except.ok tr →
      ∀ p ∈ tr, start ≤ p.start ∧ p.start ≤ 1000 ∧ p.sort = sort ∧
        fetch_items env kw sort p.start 100 = Except.ok p.items := by
  intro fuel
  induction fuel with
  | zero =>
      intro start tr h p hp
      simp only [manualLoopAux] at h
      cases h
      simp at hp
  | succ fuel ih =>
      intro start tr h p hp
      simp only [manualLoopAux] at h
      by_cases hs : start ≤ 1000
      · rw [if_pos hs] at h
        cases hf : fetch_items env kw sort start 100 with
        | error e =>
            simp only [hf] at h
            exact Except.noConfusion h
        | ok items =>
            simp only [hf] at h
            by_cases hempty : items.isEmpty = true
            · rw [if_pos hempty] at h
              injection h with h2
              subst h2
              rcases List.mem_singleton.mp hp with rfl
              exact ⟨le_refl _, hs, rfl, hf⟩
            · rw [if_neg hempty] at h
              cases hrows : pageRows (fun i k it =>
                  (mergeManualRow (build_uuid_map store (items.filterMap itemKey))
                    (env.uuidGen sort start i) (env.now sort start) kw sort k
                    it).map (filter_row_by_existing_columns cols)) 0 items with
              | error e =>
                  simp only [hrows] at h
                  exact Except.noConfusion h
              | ok rows =>
                  simp only [hrows] at h
                  by_cases hlen : items.length < 100
                  · rw [if_pos hlen] at h
                    injection h with h2
                    subst h2
                    rcases List.mem_singleton.mp hp with rfl
                    exact ⟨le_refl _, hs, rfl, hf⟩
                  · rw [if_neg hlen] at h
                    cases hrec : manualLoopAux env cols store kw sort fuel
                        (start + 100) with
                    | error e =>
                        simp only [hrec] at h
                        exact Except.noConfusion h
                    | ok rest =>
                        simp only [hrec] at h
                        injection h with h2
                        subst h2
                        rcases List.mem_cons.mp hp with rfl | hprest
                        · exact ⟨le_refl _, hs, rfl, hf⟩
                        · obtain ⟨h1, h2, h3, h4⟩ := ih (start + 100) rest hrec p hprest
                          exact ⟨le_trans (Nat.le_add_right start 100) h1, h2, h3, h4⟩
      · rw [if_neg hs] at h
        cases h
        simp at hp

theorem manualLoopAux_head (env : FetchEnv) (cols : List String)
    (store : List StoreRow) (kw sort : String) (fuel start : Nat)
    (p : PageTrace) (rest : List PageTrace)
    (h : manualLoopAux env cols store kw sort fuel start =
      Except.ok (p :: rest)) : p.start = start := by
  cases fuel with
  | zero =>
      simp only [manualLoopAux] at h
      injection h with h2
      exact List.noConfusion h2
  | succ fuel =>
      simp only [manualLoopAux] at h
      by_cases hs : start ≤ 1000
      · rw [if_pos hs] at h
        cases hf : fetch_items env kw sort start 100 with
        | error e =>
            simp only [hf] at h
            exact Except.noConfusion h
        | ok items =>
            simp only [hf] at h
            by_cases hempty : items.isEmpty = true
            · rw [if_pos hempty] at h
              injection h with h2
              cases h2
              rfl
            · rw [if_neg hempty] at h
              cases hrows : pageRows (fun i k it =>
                  (mergeManualRow (build_uuid_map store (items.filterMap itemKey))
                    (env.uuidGen sort start i) (env.now sort start) kw sort k
                    it).map (filter_row_by_existing_columns cols)) 0 items with
              | error e =>
                  simp only [hrows] at h
                  exact Except.noConfusion h
              | ok rows =>
                  simp only [hrows] at h
                  by_cases hlen : items.length < 100
                  · rw [if_pos hlen] at h
                    injection h with h2
                    cases h2
                    rfl
                  · rw [if_neg hlen] at h
                    cases hrec : manualLoopAux env cols store kw sort fuel
                        (start + 100) with
                    | error e =>
                        simp only [hrec] at h
                        exact Except.noConfusion h
                    | ok rest2 =>
                        simp only [hrec] at h
                        injection h with h2
                        cases h2
                        rfl
      · rw [if_neg hs] at h
        injection h with h2
        exact List.noConfusion h2

theorem manualLoopAux_chain (env : FetchEnv) (cols : List String)
    (store : List StoreRow) (kw sort : String) :
    ∀ (fuel start : Nat) (tr : List PageTrace),
      manualLoopAux env cols store kw sort fuel start = Except.ok tr →
      List.Chain' pageStep tr := by
  intro fuel
  induction fuel with
  | zero =>
      intro start tr h
      simp only [manualLoopAux] at h
      cases h
      exact List.chain'_nil
  | succ fuel ih =>
      intro start tr h
      simp only [manualLoopAux] at h
      by_cases hs : start ≤ 1000
      · rw [if_pos hs] at h
        cases hf : fetch_items env kw sort start 100 with
        | error e =>
            simp only [hf] at h
            exact Except.noConfusion h
        | ok items =>
            simp only [hf] at h
            by_cases hempty : items.isEmpty = true
            · rw [if_pos hempty] at h
              injection h with h2
              subst h2
              exact List.chain'_singleton _
            · rw [if_neg hempty] at h
              cases hrows : pageRows (fun i k it =>
                  (mergeManualRow (build_uuid_map store (items.filterMap itemKey))
                    (env.uuidGen sort start i) (env.now sort start) kw sort k
                    it).map (filter_row_by_existing_columns cols)) 0 items with
              | error e =>
                  simp only [hrows] at h
                  exact Except.noConfusion h
              | ok rows =>
                  simp only [hrows] at h
                  by_cases hlen : items.length < 100
                  · rw [if_pos hlen] at h
                    injection h with h2
                    subst h2
                    exact List.chain'_singleton _
                  · rw [if_neg hlen] at h
                    cases hrec : manualLoopAux env cols store kw sort fuel
                        (start + 100) with
                    | error e =>
                        simp only [hrec] at h
                        exact Except.noConfusion h
                    | ok rest =>
                        simp only [hrec] at h
                        injection h with h2
                        subst h2
                        refine List.chain'_cons'.mpr ⟨?_, ih (start + 100) rest hrec⟩
                        intro b hb
                        cases rest with
                        | nil => simp at hb
                        | cons b0 bs =>
                            simp only [List.head?_cons, Option.mem_def] at hb
                            injection hb with hbe
                            subst hbe
                            have hb1 : b0.start = start + 100 :=
                              manualLoopAux_head env cols store kw sort fuel
                                (start + 100) b0 bs hrec
                            have hb2 := manualLoopAux_pages env cols store kw sort
                              fuel (start + 100) (b0 :: bs) hrec b0
                              (List.mem_cons_self b0 bs)
                            exact ⟨hb1, Nat.le_of_not_lt hlen,
                              hb1 ▸ hb2.2.1⟩
      · rw [if_neg hs] at h
        cases h
        exact List.chain'_nil

theorem manualLoopAux_write (env : FetchEnv) (cols : List String)
    (store : List StoreRow) (kw sort : String) :
    ∀ (fuel start : Nat) (tr : List PageTrace),
      manualLoopAux env cols store kw sort fuel start = Except.ok tr →
      ∀ p ∈ tr, ∀ r ∈ p.write, ∃ raw j k it, it ∈ p.items ∧
        itemKey it = some k ∧
        mergeManualRow (build_uuid_map store (p.items.filterMap itemKey))
          (env.uuidGen p.sort p.start j) (env.now p.sort p.start) kw sort k it
          = Except.ok raw ∧
        r = filter_row_by_existing_columns cols raw := by
  intro fuel
  induction fuel with
  | zero =>
      intro start tr h p hp
      simp only [manualLoopAux] at h
      cases h
      simp at hp
  | succ fuel ih =>
      intro start tr h p hp
      simp only [manualLoopAux] at h
      by_cases hs : start ≤ 1000
      · rw [if_pos hs] at h
        cases hf : fetch_items env kw sort start 100 with
        | error e =>
            simp only [hf] at h
            exact Except.noConfusion h
        | ok items =>
            simp only [hf] at h
            by_cases hempty : items.isEmpty = true
            · rw [if_pos hempty] at h
              injection h with h2
              subst h2
              rcases List.mem_singleton.mp hp with rfl
              intro r hr
              simp at hr
            · rw [if_neg hempty] at h
              cases hrows : pageRows (fun i k it =>
                  (mergeManualRow (build_uuid_map store (items.filterMap itemKey))
                    (env.uuidGen sort start i) (env.now sort start) kw sort k
                    it).map (filter_row_by_existing_columns cols)) 0 items with
              | error e =>
                  simp only [hrows] at h
                  exact Except.noConfusion h
              | ok rows =>
                  simp only [hrows] at h
                  have hhead : ∀ r ∈ rows, ∃ raw j k it, it ∈ items ∧
                      itemKey it = some k ∧
                      mergeManualRow (build_uuid_map store (items.filterMap itemKey))
                        (env.uuidGen sort start j) (env.now sort start) kw sort
                        k it = Except.ok raw ∧
                      r = filter_row_by_existing_columns cols raw := by
                    intro r hr
                    obtain ⟨j, k, it, hit, hk, hm⟩ :=
                      pageRows_mem _ items 0 rows hrows r hr
                    cases hraw : mergeManualRow
                        (build_uuid_map store (items.filterMap itemKey))
                        (env.uuidGen sort start j) (env.now sort start) kw sort
                        k it with
                    | error e =>
                        rw [hraw] at hm
                        exact Except.noConfusion hm
                    | ok raw =>
                        rw [hraw] at hm
                        injection hm with hm2
                        exact ⟨raw, j, k, it, hit, hk, hraw, hm2.symm⟩
                  by_cases hlen : items.length < 100
                  · rw [if_pos hlen] at h
                    injection h with h2
                    subst h2
                    rcases List.mem_singleton.mp hp with rfl
                    exact hhead
                  · rw [if_neg hlen] at h
                    cases hrec : manualLoopAux env cols store kw sort fuel
                        (start + 100) with
                    | error e =>
                        simp only [hrec] at h
                        exact Except.noConfusion h
                    | ok rest =>
                        simp only [hrec] at h
                        injection h with h2
                        subst h2
                        rcases List.mem_cons.mp hp with rfl | hprest
                        · exact hhead
                        · exact ih (start + 100) rest hrec p hprest
      · rw [if_neg hs] at h
        cases h
        simp at hp

theorem collectSortsAux_pages (env : FetchEnv) (cols : List String)
    (store : List StoreRow) (term mode : String) (display : Nat) :
    ∀ (sorts : List String) (tr : List PageTrace),
      collectSortsAux env cols store term mode display sorts = Except.ok tr →
      tr.map (fun p => p.sort) = sorts ∧ ∀ p ∈ tr, p.start = 1 ∧
        fetch_items env term p.sort 1 display = Except.ok p.items := by
  intro sorts
  induction sorts with
  | nil =>
      intro tr h
      simp only [collectSortsAux] at h
      cases h
      exact ⟨rfl, by simp⟩
  | cons sort rest ih =>
      intro tr h
      simp only [collectSortsAux] at h
      cases hf : fetch_items env term sort 1 display with
      | error e =>
          simp only [hf] at h
          exact Except.noConfusion h
      | ok items =>
          simp only [hf] at h
          by_cases hempty : items.isEmpty = true
          · rw [if_pos hempty] at h
            cases hrec : collectSortsAux env cols store term mode display rest with
            | error e =>
                simp only [hrec] at h
                exact Except.noConfusion h
            | ok trs =>
                simp only [hrec] at h
                injection h with h2
                subst h2
                obtain ⟨ihm, ihp⟩ := ih trs hrec
                refine ⟨by simp [ihm], ?_⟩
                intro p hp
                rcases List.mem_cons.mp hp with rfl | hp2
                · exact ⟨rfl, hf⟩
                · exact ihp p hp2
          · rw [if_neg hempty] at h
            cases hrows : pageRows (fun i k it =>
                (mergeAutoRow
                  (build_existing_map cols store (items.filterMap itemKey))
                  (env.uuidGen sort 1 i) (env.now sort 1) mode term sort k
                  it).map (filter_row_by_existing_columns cols)) 0 items with
            | error e =>
                simp only [hrows] at h
                exact Except.noConfusion h
            | ok rows =>
                simp only [hrows] at h
                cases hrec : collectSortsAux env cols store term mode display rest with
                | error e =>
                    simp only [hrec] at h
                    exact Except.noConfusion h
                | ok trs =>
                    simp only [hrec] at h
                    injection h with h2
                    subst h2
                    obtain ⟨ihm, ihp⟩ := ih trs hrec
                    refine ⟨by simp [ihm], ?_⟩
                    intro p hp
                    rcases List.mem_cons.mp hp with rfl | hp2
                    · exact ⟨rfl, hf⟩
                    · exact ihp p hp2

theorem collectSortsAux_write (env : FetchEnv) (cols : List String)
    (store : List StoreRow) (term mode : String) (display : Nat) :
    ∀ (sorts : List String) (tr : List PageTrace),
      collectSortsAux env cols store term mode display sorts = Except.ok tr →
      ∀ p ∈ tr, ∀ r ∈ p.write, ∃ raw j k it, it ∈ p.items ∧
        itemKey it = some k ∧
        mergeAutoRow (build_existing_map cols store (p.items.filterMap itemKey))
          (env.uuidGen p.sort 1 j) (env.now p.sort 1) mode term p.sort k it
          = Except.ok raw ∧
        r = filter_row_by_existing_columns cols raw := by
  intro sorts
  induction sorts with
  | nil =>
      intro tr h p hp
      simp only [collectSortsAux] at h
      cases h
      simp at hp
  | cons sort rest ih =>
      intro tr h p hp
      simp only [collectSortsAux] at h
      cases hf : fetch_items env term sort 1 display with
      | error e =>
          simp only [hf] at h
          exact Except.noConfusion h
      | ok items =>
          simp only [hf] at h
          by_cases hempty : items.isEmpty = true
          · rw [if_pos hempty] at h
            cases hrec : collectSortsAux env cols store term mode display rest with
            | error e =>
                simp only [hrec] at h
                exact Except.noConfusion h
            | ok trs =>
                simp only [hrec] at h
                injection h with h2
                subst h2
                rcases List.mem_cons.mp hp with rfl | hp2
                · intro r hr
                  simp at hr
                · exact ih trs hrec p hp2
          · rw [if_neg hempty] at h
            cases hrows : pageRows (fun i k it =>
                (mergeAutoRow
                  (build_existing_map cols store (items.filterMap itemKey))
                  (env.uuidGen sort 1 i) (env.now sort 1) mode term sort k
                  it).map (filter_row_by_existing_columns cols)) 0 items with
            | error e =>
                simp only [hrows] at h
                exact Except.noConfusion h
            | ok rows =>
                simp only [hrows] at h
                cases hrec : collectSortsAux env cols store term mode display rest with
                | error e =>
                    simp only [hrec] at h
                    exact Except.noConfusion h
                | ok trs =>
                    simp only [hrec] at h
                    injection h with h2
                    subst h2
                    rcases List.mem_cons.mp hp with rfl | hp2
                    · intro r hr
                      obtain ⟨j, k, it, hit, hk, hm⟩ :=
                        pageRows_mem _ items 0 rows hrows r hr
                      cases hraw : mergeAutoRow
                          (build_existing_map cols store (items.filterMap itemKey))
                          (env.uuidGen sort 1 j) (env.now sort 1) mode term sort
                          k it with
                      | error e =>
                          rw [hraw] at hm
                          exact Except.noConfusion hm
                      | ok raw =>
                          rw [hraw] at hm
                          injection hm with hm2
                          exact ⟨raw, j, k, it, hit, hk, hraw, hm2.symm⟩
                    · exact ih trs hrec p hp2

theorem fetch_items_non200 (env : FetchEnv) (kw sort : String)
    (start display : Nat) (s : Nat) (items : List Item)
    (hf : env.fetch kw sort start display = FetchResult.resp s items)
    (hs : s ≠ 200) : fetch_items env kw sort start display = Except.ok [] := by
  simp only [fetch_items, hf, if_neg hs]

theorem manualLoop_non200 (env : FetchEnv) (cols : List String)
    (store : List StoreRow) (kw sort : String) (s : Nat) (items : List Item)
    (hf : env.fetch kw sort 1 100 = FetchResult.resp s items) (hs : s ≠ 200) :
    manualLoop env cols store kw sort =
      Except.ok [PageTrace.mk sort 1 [] []] := by
  have hfi := fetch_items_non200 env kw sort 1 100 s items hf hs
  simp [manualLoop, manualLoopAux, hfi]

theorem collect_manual_netfail (env : FetchEnv) (cols : List String)
    (store : List StoreRow) (kw : String) (hk : kw ≠ "")
    (hf : env.fetch kw "sim" 1 100 = FetchResult.net_fail) :
    collect_manual env cols store kw = Except.error () := by
  have hfi : fetch_items env kw "sim" 1 100 = Except.error () := by
    simp [fetch_items, hf]
  have hloop : manualLoop env cols store kw "sim" = Except.error () := by
    simp [manualLoop, manualLoopAux, hfi]
  unfold collect_manual
  rw [if_neg hk, hloop]

theorem collect_manual_sim_non200 (env : FetchEnv) (cols : List String)
    (store : List StoreRow) (kw : String) (s : Nat) (items : List Item)
    (hk : kw ≠ "") (hf : env.fetch kw "sim" 1 100 = FetchResult.resp s items)
    (hs : s ≠ 200) :
    collect_manual env cols store kw =
      (manualLoop env cols store kw "date").map
        (fun t2 => PageTrace.mk "sim" 1 [] [] :: t2) := by
  have h1 := manualLoop_non200 env cols store kw "sim" s items hf hs
  simp only [collect_manual, if_neg hk, h1]
  cases hd : manualLoop env cols store kw "date" with
  | error e => simp [Except.map]
  | ok t2 => simp [Except.map]

theorem lookup_some_mem {β : Type} (k : String) :
    ∀ (l : List (String × β)) (e : β), l.lookup k = some e → (k, e) ∈ l := by
  intro l
  induction l with
  | nil => intro e h; exact Option.noConfusion h
  | cons a rest ih =>
      intro e h
      rcases a with ⟨a1, a2⟩
      simp only [List.lookup] at h
      by_cases hak : (k == a1) = true
      · rw [hak] at h
        injection h with h2
        have hk : k = a1 := by simpa using hak
        subst hk
        subst h2
        exact List.mem_cons_self _ _
      · have hff : (k == a1) = false := by simpa using hak
        rw [hff] at h
        exact List.mem_cons_of_mem _ (ih e h)

/-- Syntactic unfolding of `build_existing_map` with the `let`s inlined. -/
theorem build_existing_map_eq (cols : List String) (store : List StoreRow)
    (isbns : List String) :
    build_existing_map cols store isbns =
      if (isbns.filter (fun i => pyStrip i ≠ "")).isEmpty then []
      else
        ((store.filter (fun r =>
            ((isbns.filter (fun i => pyStrip i ≠ "")).map stripQuotes).contains
              r.isbn)).map (fun r => r.isbn)).dedup.filterMap (fun k =>
          (argmaxBy (orderKey cols)
            ((store.filter (fun r =>
              ((isbns.filter (fun i => pyStrip i ≠ "")).map stripQuotes).contains
                r.isbn)).filter (fun r => r.isbn = k))).map
            (fun r => (k, Existing.mk r.uuid r.created_at r.created_log))) :=
  rfl

theorem filterMap_pair_fst_sublist {α β γ : Type} (g : α → Option β)
    (h : α → β → γ) :
    ∀ keys : List α,
      ((keys.filterMap (fun k => (g k).map (fun e => (k, h k e)))).map
        Prod.fst).Sublist keys := by
  intro keys
  induction keys with
  | nil => simp
  | cons k rest ih =>
      cases hg : g k with
      | none =>
          simp only [List.filterMap_cons, hg, Option.map_none']
          exact ih.cons k
      | some e =>
          simp only [List.filterMap_cons, hg, Option.map_some', List.map_cons]
          exact ih.cons₂ k

theorem build_existing_map_keys_nodup (cols : List String)
    (store : List StoreRow) (isbns : List String) :
    ((build_existing_map cols store isbns).map Prod.fst).Nodup := by
  rw [build_existing_map_eq]
  by_cases he : (isbns.filter (fun i => pyStrip i ≠ "")).isEmpty = true
  · rw [if_pos he]
    exact List.nodup_nil
  · rw [if_neg he]
    exact List.Sublist.nodup
      (filterMap_pair_fst_sublist
        (fun k => argmaxBy (orderKey cols)
          ((store.filter (fun r =>
            ((isbns.filter (fun i => pyStrip i ≠ "")).map stripQuotes).contains
              r.isbn)).filter (fun r => r.isbn = k)))
        (fun _ r => Existing.mk r.uuid r.created_at r.created_log) _)
      (List.nodup_dedup _)

theorem build_existing_map_select (cols : List String) (store : List StoreRow)
    (isbns : List String) (k : String) (e : Existing)
    (h : (build_existing_map cols store isbns).lookup k = some e) :
    ∃ r ∈ store, r.isbn = k ∧
      e = Existing.mk r.uuid r.created_at r.created_log ∧
      ∀ r2 ∈ store, r2.isbn = k → orderKey cols r2 ≤ orderKey cols r := by
  have hmem := lookup_some_mem k _ e h
  rw [build_existing_map_eq] at hmem
  by_cases hemp : (isbns.filter (fun i => pyStrip i ≠ "")).isEmpty = true
  · rw [if_pos hemp] at hmem
    simp at hmem
  · rw [if_neg hemp] at hmem
    rw [List.mem_filterMap] at hmem
    obtain ⟨k0, hk0, hf⟩ := hmem
    cases hargmax : argmaxBy (orderKey cols)
        ((store.filter (fun r =>
          ((isbns.filter (fun i => pyStrip i ≠ "")).map stripQuotes).contains
            r.isbn)).filter (fun r => r.isbn = k0)) with
    | none => rw [hargmax] at hf; exact Option.noConfusion hf
    | some r =>
        rw [hargmax] at hf
        simp only [Option.map_some'] at hf
        injection hf with hf1
        have hk0k : k0 = k := congrArg Prod.fst hf1
        have hee : e = Existing.mk r.uuid r.created_at r.created_log :=
          (congrArg Prod.snd hf1).symm
        have hrmem := argmaxBy_mem (orderKey cols) _ r hargmax
        have hrin := List.mem_filter.mp hrmem
        have hrin2 := List.mem_filter.mp hrin.1
        have hrisbn : r.isbn = k0 := by simpa using hrin.2
        refine ⟨r, hrin2.1, hrisbn.trans hk0k, hee, ?_⟩
        intro r2 hr2 hr2k
        apply argmaxBy_ge (orderKey cols) _ r hargmax
        rw [List.mem_filter]
        constructor
        · rw [List.mem_filter]
          refine ⟨hr2, ?_⟩
          have hsame : r2.isbn = r.isbn := by rw [hr2k, hrisbn.trans hk0k]
          rw [hsame]
          exact hrin2.2
        · simp [hr2k, ← hk0k]

theorem build_existing_map_quote_none (cols : List String)
    (store : List StoreRow) (isbns : List String) (k : String)
    (hq : hasQuote k = true) :
    (build_existing_map cols store isbns).lookup k = none := by
  apply lookup_eq_none_of_keys_ne
  intro kv hkv
  rw [build_existing_map_eq] at hkv
  by_cases hemp : (isbns.filter (fun i => pyStrip i ≠ "")).isEmpty = true
  · rw [if_pos hemp] at hkv
    simp at hkv
  · rw [if_neg hemp] at hkv
    rw [List.mem_filterMap] at hkv
    obtain ⟨k0, hk0, hf⟩ := hkv
    cases hargmax : argmaxBy (orderKey cols)
        ((store.filter (fun r =>
          ((isbns.filter (fun i => pyStrip i ≠ "")).map stripQuotes).contains
            r.isbn)).filter (fun r => r.isbn = k0)) with
    | none => rw [hargmax] at hf; exact Option.noConfusion hf
    | some r =>
        rw [hargmax] at hf
        simp only [Option.map_some'] at hf
        injection hf with hf1
        have hk0 : kv.1 = k0 := (congrArg Prod.fst hf1).symm
        rw [hk0]
        intro hcontra
        subst hcontra
        have hrmem := argmaxBy_mem (orderKey cols) _ r hargmax
        have hrin := List.mem_filter.mp hrmem
        have hrin2 := List.mem_filter.mp hrin.1
        have hrisbn : r.isbn = k0 := by simpa using hrin.2
        have hsafe : (((isbns.filter (fun i => pyStrip i ≠ "")).map
            stripQuotes).contains r.isbn) = true := hrin2.2
        have hsafem : r.isbn ∈ (isbns.filter (fun i => pyStrip i ≠ "")).map
            stripQuotes := by simpa using hsafe
        rw [List.mem_map] at hsafem
        obtain ⟨i0, _, hi0⟩ := hsafem
        have hnq : hasQuote r.isbn = false := by
          rw [← hi0]
          exact hasQuote_stripQuotes i0
        rw [hrisbn] at hnq
        rw [hnq] at hq
        exact Bool.noConfusion hq

theorem collectSortsAux_non200 (env : FetchEnv) (cols : List String)
    (store : List StoreRow) (term mode : String) (display : Nat)
    (sort : String) (rest : List String) (s : Nat) (items : List Item)
    (hf : env.fetch term sort 1 display = FetchResult.resp s items)
    (hs : s ≠ 200) :
    collectSortsAux env cols store term mode display (sort :: rest) =
      (collectSortsAux env cols store term mode display rest).map
        (fun trs => PageTrace.mk sort 1 [] [] :: trs) := by
  have hfi := fetch_items_non200 env term sort 1 display s items hf hs
  simp only [collectSortsAux, hfi, List.isEmpty_nil, if_true]
  cases hrec : collectSortsAux env cols store term mode display rest with
  | error e => simp [Except.map]
  | ok trs => simp [Except.map]

theorem collectSortsAux_netfail (env : FetchEnv) (cols : List String)
    (store : List StoreRow) (term mode : String) (display : Nat)
    (sort : String) (rest : List String)
    (hf : env.fetch term sort 1 display = FetchResult.net_fail) :
    collectSortsAux env cols store term mode display (sort :: rest) =
      Except.error () := by
  have hfi : fetch_items env term sort 1 display = Except.error () := by
    simp [fetch_items, hf]
  simp only [collectSortsAux, hfi]

theorem collect_for_term_netfail (env : FetchEnv) (cols : List String)
    (store : List StoreRow) (reqs display : Nat) (term mode : String)
    (hreqs : reqs ≤ 1)
    (hf : env.fetch term (env.sortChoice term) 1 display =
      FetchResult.net_fail) :
    collect_for_term env cols store reqs display term mode =
      Except.error () := by
  unfold collect_for_term
  rw [if_pos hreqs]
  exact collectSortsAux_netfail env cols store term mode display
    (env.sortChoice term) [] hf

theorem collect_mixed_netfail (env : FetchEnv) (cols : List String)
    (store : List StoreRow) (reqs display batch : Nat) (fb genkw : String)
    (shuffle1 shuffle2 : List String → List String)
    (tokKo : String → List String)
    (tokEn : String → List (String × String))
    (q : Except Unit (List SampleRow)) (hreqs : reqs ≤ 1)
    (hf : env.fetch (sanitize_keyword fb (some genkw))
      (env.sortChoice (sanitize_keyword fb (some genkw))) 1 display =
      FetchResult.net_fail) :
    collect env cols store reqs display batch "mixed" fb genkw shuffle1
      shuffle2 tokKo tokEn q = Except.error () := by
  have hct := collect_for_term_netfail env cols store reqs display
    (sanitize_keyword fb (some genkw)) "mixed" hreqs hf
  show (match collect_for_term env cols store reqs display
      (sanitize_keyword fb (some genkw)) "mixed" with
    | Except.error e => Except.error e
    | Except.ok tr =>
        Except.ok [(sanitize_keyword fb (some genkw), tr)]) =
      Except.error ()
  simp only [hct]

theorem collect_manual_split (env : FetchEnv) (cols : List String)
    (store : List StoreRow) (kw : String) (tr : List PageTrace)
    (h : collect_manual env cols store kw = Except.ok tr) :
    kw ≠ "" ∧ ∃ t1 t2, manualLoop env cols store kw "sim" = Except.ok t1 ∧
      manualLoop env cols store kw "date" = Except.ok t2 ∧ tr = t1 ++ t2 := by
  by_cases hk : kw = ""
  · rw [collect_manual, if_pos hk] at h
    exact Except.noConfusion h
  · rw [collect_manual, if_neg hk] at h
    refine ⟨hk, ?_⟩
    cases h1 : manualLoop env cols store kw "sim" with
    | error e =>
        rw [h1] at h
        exact Except.noConfusion h
    | ok t1 =>
        rw [h1] at h
        cases h2 : manualLoop env cols store kw "date" with
        | error e =>
            rw [h2] at h
            exact Except.noConfusion h
        | ok t2 =>
            rw [h2] at h
            injection h with h3
            exact ⟨t1, t2, rfl, rfl, h3.symm⟩

theorem collect_manual_write_fields (env : FetchEnv) (cols : List String)
    (store : List StoreRow) (kw : String) (tr : List PageTrace)
    (h : collect_manual env cols store kw = Except.ok tr) :
    ∀ p ∈ tr, ∀ r ∈ p.write, ∃ raw j k it, it ∈ p.items ∧
      itemKey it = some k ∧
      mergeManualRow (build_uuid_map store (p.items.filterMap itemKey))
        (env.uuidGen p.sort p.start j) (env.now p.sort p.start) kw p.sort k it
        = Except.ok raw ∧
      r = filter_row_by_existing_columns cols raw := by
  obtain ⟨hk, t1, t2, h1, h2, htr⟩ := collect_manual_split env cols store kw tr h
  subst htr
  intro p hp
  rcases List.mem_append.mp hp with hp1 | hp2
  · have hs : p.sort = "sim" :=
      (manualLoopAux_pages env cols store kw "sim" 11 1 t1 h1 p hp1).2.2.1
    have hw := manualLoopAux_write env cols store kw "sim" 11 1 t1 h1 p hp1
    rw [← hs] at hw
    exact hw
  · have hs : p.sort = "date" :=
      (manualLoopAux_pages env cols store kw "date" 11 1 t2 h2 p hp2).2.2.1
    have hw := manualLoopAux_write env cols store kw "date" 11 1 t2 h2 p hp2
    rw [← hs] at hw
    exact hw

/-- Syntactic unfolding of `build_uuid_map` with the `let`s inlined. -/
theorem build_uuid_map_eq (store : List StoreRow) (isbns : List String) :
    build_uuid_map store isbns =
      if (isbns.filter (fun i => pyStrip i ≠ "")).isEmpty then []
      else
        ((store.filter (fun r =>
          (isbns.filter (fun i => pyStrip i ≠ "")).contains r.isbn)).take
            100000).map (fun r => (r.isbn, r.uuid)) :=
  rfl

theorem build_uuid_map_mem (store : List StoreRow) (isbns : List String)
    (k u : String) (h : dictGet (build_uuid_map store isbns) k = some u) :
    ∃ r ∈ store, r.isbn = k ∧ r.uuid = u := by
  have hm := dictGet_mem _ _ _ h
  rw [build_uuid_map_eq] at hm
  by_cases hemp : (isbns.filter (fun i => pyStrip i ≠ "")).isEmpty = true
  · rw [if_pos hemp] at hm
    simp at hm
  · rw [if_neg hemp] at hm
    rw [List.mem_map] at hm
    obtain ⟨r, hr, hru⟩ := hm
    have hrf : r ∈ store.filter (fun r =>
        (isbns.filter (fun i => pyStrip i ≠ "")).contains r.isbn) :=
      List.take_subset _ _ hr
    have hr2 : r ∈ store := (List.mem_filter.mp hrf).1
    have hk : r.isbn = k := congrArg Prod.fst hru
    have hu : r.uuid = u := congrArg Prod.snd hru
    exact ⟨r, hr2, hk, hu⟩

theorem fetch_items_len (env : FetchEnv) (kw sort : String)
    (start display : Nat) (items : List Item) (hbd : fetchWithinDisplay env)
    (h : fetch_items env kw sort start display = Except.ok items) :
    items.length ≤ display := by
  have hb : (match env.fetch kw sort start display with
      | FetchResult.net_fail => True
      | FetchResult.resp _ its => its.length ≤ display) :=
    hbd kw sort start display
  unfold fetch_items at h
  cases hf : env.fetch kw sort start display with
  | net_fail =>
      simp only [hf] at h
      exact Except.noConfusion h
  | resp s its =>
      simp only [hf] at h
      simp only [hf] at hb
      by_cases hs : s = 200
      · rw [if_pos hs] at h
        injection h with h2
        rw [← h2]
        exact hb
      · rw [if_neg hs] at h
        injection h with h2
        rw [← h2]
        exact Nat.zero_le _

/-! ### Claim theorems -/

/-- C7: for every destination column set and every row, the written row
contains exactly the record fields whose names are in the column set
(lookup and membership are those of the projected row, fields outside the
set are omitted without error), and every row a run hands to a per-page
batch write is such a projection. -/
theorem c7_schema_projection :
    (∀ (cols : List String) (row : Drow) (k : String),
      (filter_row_by_existing_columns cols row).lookup k =
        if cols.contains k then row.lookup k else none) ∧
    (∀ (cols : List String) (row : Drow) (kv : String × Value),
      kv ∈ filter_row_by_existing_columns cols row ↔
        kv ∈ row ∧ cols.contains kv.1 = true) ∧
    (∀ (env : FetchEnv) (cols : List String) (store : List StoreRow)
      (kw : String) (tr : List PageTrace),
      collect_manual env cols store kw = Except.ok tr →
      ∀ p ∈ tr, ∀ r ∈ p.write,
        (∀ kv ∈ r, cols.contains kv.1 = true) ∧
        ∃ raw, r = filter_row_by_existing_columns cols raw) ∧
    (∀ (env : FetchEnv) (cols : List String) (store : List StoreRow)
      (reqs display : Nat) (term mode : String) (tr : List PageTrace),
      collect_for_term env cols store reqs display term mode = Except.ok tr →
      ∀ p ∈ tr, ∀ r ∈ p.write, ∀ kv ∈ r, cols.contains kv.1 = true) := by
  refine ⟨fun cols row k => filter_row_lookup cols k row,
    filter_row_mem_iff, ?_, ?_⟩
  · intro env cols store kw tr h p hp r hr
    obtain ⟨raw, j, k, it, _, _, _, hrw⟩ :=
      collect_manual_write_fields env cols store kw tr h p hp r hr
    refine ⟨?_, raw, hrw⟩
    intro kv hkv
    rw [hrw] at hkv
    exact ((filter_row_mem_iff cols raw kv).mp hkv).2
  · intro env cols store reqs display term mode tr h p hp r hr kv hkv
    obtain ⟨raw, j, k, it, _, _, _, hrw⟩ :=
      collectSortsAux_write env cols store term mode display _ tr h p hp r hr
    rw [hrw] at hkv
    exact ((filter_row_mem_iff cols raw kv).mp hkv).2

/-- C7 witness: the projection drops the field "b" absent from the column
set, and every field of every row written by a concrete successful manual
run is in the destination column set. -/
theorem c7_witness :
    ((filter_row_by_existing_columns ["a"]
      [("a", Value.vInt 1), ("b", Value.vInt 2)]).lookup "b" = none) ∧
    (∃ tr, collect_manual envOne colsAll [] "kw" = Except.ok tr ∧
      ∀ p ∈ tr, ∀ r ∈ p.write, ∀ kv ∈ r, colsAll.contains kv.1 = true) := by
  constructor
  · have h := c7_schema_projection.1 ["a"]
      [("a", Value.vInt 1), ("b", Value.vInt 2)] "b"
    rw [h]
    rfl
  · exact ⟨_, rfl, fun p hp r hr kv hkv =>
      (c7_schema_projection.2.2.1 envOne colsAll [] "kw" _ rfl p hp r
        hr).1 kv hkv⟩

/-- C8: for every sampling mode and batch size of at least one, term
sampling against an unreachable store (the read raised and was caught) or
an empty store returns a nonempty list drawn from the fixed fallback
vocabulary.  The embedding is total, matching that the source catches the
read failure. -/
theorem c8_term_fallback :
    ∀ (tokKo : String → List String)
      (tokEn : String → List (String × String))
      (shuffle : List String → List String) (fb mode : String) (batch : Nat),
      1 ≤ batch → (shuffle fallbackTerms).Perm fallbackTerms →
      (pick_unique_terms tokKo tokEn shuffle fb (Except.error ()) mode batch
          ≠ [] ∧
        ∀ t ∈ pick_unique_terms tokKo tokEn shuffle fb (Except.error ())
          mode batch, t ∈ fallbackTerms) ∧
      (pick_unique_terms tokKo tokEn shuffle fb (Except.ok []) mode batch
          ≠ [] ∧
        ∀ t ∈ pick_unique_terms tokKo tokEn shuffle fb (Except.ok [])
          mode batch, t ∈ fallbackTerms) := by
  intro tokKo tokEn shuffle fb mode batch hb hperm
  have key : ∀ q : Except Unit (List SampleRow), sample_df_for_terms q = [] →
      (pick_unique_terms tokKo tokEn shuffle fb q mode batch ≠ [] ∧
        ∀ t ∈ pick_unique_terms tokKo tokEn shuffle fb q mode batch,
          t ∈ fallbackTerms) := by
    intro q hq
    unfold pick_unique_terms
    rw [hq]
    simp only [List.isEmpty_nil, if_true]
    have hlen : (shuffle fallbackTerms).length = 4 := by
      rw [hperm.length_eq]
      rfl
    constructor
    · intro hnil
      have h2 := congrArg List.length hnil
      rw [List.length_take, hlen] at h2
      simp only [List.length_nil] at h2
      have hfb : fallbackTerms.length = 4 := rfl
      rw [hfb] at h2
      omega
    · intro t ht
      have hmem := List.take_subset _ _ ht
      exact hperm.mem_iff.mp hmem
  exact ⟨key (Except.error ()) rfl, key (Except.ok []) rfl⟩

/-- C8 witness: with the identity permutation, batch size 1 and an
unreachable (or empty) store the sampler returns a nonempty subset of the
fallback vocabulary. -/
theorem c8_witness :
    (pick_unique_terms (fun _ => []) (fun _ => []) id "x" (Except.error ())
        "keyword" 1 ≠ [] ∧
      ∀ t ∈ pick_unique_terms (fun _ => []) (fun _ => []) id "x"
        (Except.error ()) "keyword" 1, t ∈ fallbackTerms) ∧
    (pick_unique_terms (fun _ => []) (fun _ => []) id "x" (Except.ok [])
        "keyword" 1 ≠ [] ∧
      ∀ t ∈ pick_unique_terms (fun _ => []) (fun _ => []) id "x"
        (Except.ok []) "keyword" 1, t ∈ fallbackTerms) :=
  c8_term_fallback (fun _ => []) (fun _ => []) id "x" "keyword" 1
    (by norm_num) (List.Perm.refl _)

/-- C9 counterexample: an item whose discount field is PRESENT but empty is
written with a null discount, not an integer, refuting "cast to integer
when present". -/
theorem c9_counterexample :
    itemD.discount = some "" ∧
    (mergeAutoRow [] "U" 3 "m" "t" "sim" "K" itemD).map
      (fun r => r.lookup "discount") = Except.ok (some Value.vNull) :=
  ⟨rfl, rfl⟩

/-- C9 (amended): in both merge paths every missing or null text field is
normalized to the empty string; the discount field is null when absent,
null, or present but empty (Python truthiness), and is cast to an integer
when present and parseable. -/
theorem c9_normalization_amended :
    (∀ (emap : List (String × Existing)) (freshU : String) (now : Int)
      (mode term sort k : String) (it : Item) (raw : Drow),
      mergeAutoRow emap freshU now mode term sort k it = Except.ok raw →
      (it.title = none → raw.lookup "title" = some (Value.vStr "")) ∧
      (it.link = none → raw.lookup "link" = some (Value.vStr "")) ∧
      (it.image = none → raw.lookup "image" = some (Value.vStr "")) ∧
      (it.author = none → raw.lookup "author" = some (Value.vStr "")) ∧
      (it.publisher = none → raw.lookup "publisher" = some (Value.vStr "")) ∧
      (it.description = none →
        raw.lookup "description" = some (Value.vStr "")) ∧
      (it.pubdate = none → raw.lookup "pubdate" = some (Value.vStr "")) ∧
      (it.discount = none → raw.lookup "discount" = some Value.vNull) ∧
      (it.discount = some "" → raw.lookup "discount" = some Value.vNull) ∧
      (∀ s n, it.discount = some s → pyParseInt s = some n →
        raw.lookup "discount" = some (Value.vInt n))) ∧
    (∀ (umap : List (String × String)) (u : String) (now : Int)
      (kw sort k : String) (it : Item) (raw : Drow),
      mergeManualRow umap u now kw sort k it = Except.ok raw →
      (it.title = none → raw.lookup "title" = some (Value.vStr "")) ∧
      (it.link = none → raw.lookup "link" = some (Value.vStr "")) ∧
      (it.image = none → raw.lookup "image" = some (Value.vStr "")) ∧
      (it.author = none → raw.lookup "author" = some (Value.vStr "")) ∧
      (it.publisher = none → raw.lookup "publisher" = some (Value.vStr "")) ∧
      (it.description = none →
        raw.lookup "description" = some (Value.vStr "")) ∧
      (it.pubdate = none → raw.lookup "pubdate" = some (Value.vStr "")) ∧
      (it.discount = none → raw.lookup "discount" = some Value.vNull) ∧
      (it.discount = some "" → raw.lookup "discount" = some Value.vNull) ∧
      (∀ s n, it.discount = some s → pyParseInt s = some n →
        raw.lookup "discount" = some (Value.vInt n))) := by
  have hdisc : ∀ (it : Item) (dv : Option Int),
      discountVal it.discount = Except.ok dv →
      (it.discount = none → dv = none) ∧
      (it.discount = some "" → dv = none) ∧
      (∀ s n, it.discount = some s → pyParseInt s = some n →
        dv = some n) := by
    intro it dv hdv
    refine ⟨?_, ?_, ?_⟩
    · intro h
      rw [h] at hdv
      simp only [discountVal] at hdv
      injection hdv with h2
      exact h2.symm
    · intro h
      rw [h] at hdv
      simp only [discountVal, if_pos rfl] at hdv
      injection hdv with h2
      exact h2.symm
    · intro s n hs hn
      rw [hs] at hdv
      by_cases hse : s = ""
      · rw [hse] at hn
        exact Option.noConfusion hn
      · simp only [discountVal, if_neg hse, hn] at hdv
        injection hdv with h2
        exact h2.symm
  constructor
  · intro emap freshU now mode term sort k it raw h
    obtain ⟨ht, hl, hi, ha, hp, hd, hpd, dv, hdv, hlook⟩ :=
      mergeAutoRow_content emap freshU now mode term sort k it raw h
    obtain ⟨d1, d2, d3⟩ := hdisc it dv hdv
    refine ⟨?_, ?_, ?_, ?_, ?_, ?_, ?_, ?_, ?_, ?_⟩
    · intro hh; rw [ht, hh]; rfl
    · intro hh; rw [hl, hh]; rfl
    · intro hh; rw [hi, hh]; rfl
    · intro hh; rw [ha, hh]; rfl
    · intro hh; rw [hp, hh]; rfl
    · intro hh; rw [hd, hh]; rfl
    · intro hh; rw [hpd, hh]; rfl
    · intro hh; rw [hlook, d1 hh]; rfl
    · intro hh; rw [hlook, d2 hh]; rfl
    · intro s n hs hn; rw [hlook, d3 s n hs hn]; rfl
  · intro umap u now kw sort k it raw h
    obtain ⟨_, _, _, _, _, _, ht, hl, hi, ha, hpub, hd, hpd, dv, hdv,
      hlook⟩ := mergeManualRow_fields umap u now kw sort k it raw h
    obtain ⟨d1, d2, d3⟩ := hdisc it dv hdv
    refine ⟨?_, ?_, ?_, ?_, ?_, ?_, ?_, ?_, ?_, ?_⟩
    · intro hh; rw [ht, hh]; rfl
    · intro hh; rw [hl, hh]; rfl
    · intro hh; rw [hi, hh]; rfl
    · intro hh; rw [ha, hh]; rfl
    · intro hh; rw [hpub, hh]; rfl
    · intro hh; rw [hd, hh]; rfl
    · intro hh; rw [hpd, hh]; rfl
    · intro hh; rw [hlook, d1 hh]; rfl
    · intro hh; rw [hlook, d2 hh]; rfl
    · intro s n hs hn; rw [hlook, d3 s n hs hn]; rfl

/-- C9 witness: on both merge paths, an item with no title (and no other
text fields) and the numeric discount "15000" is written with empty text
fields and integer discount 15000. -/
theorem c9_witness :
    (∃ raw, mergeAutoRow [] "U" 3 "m" "t" "sim" "K" itemW9 =
      Except.ok raw ∧
      raw.lookup "title" = some (Value.vStr "") ∧
      raw.lookup "discount" = some (Value.vInt 15000)) ∧
    (∃ raw, mergeManualRow [] "U" 3 "kw" "sim" "K" itemW9 =
      Except.ok raw ∧
      raw.lookup "title" = some (Value.vStr "") ∧
      raw.lookup "pubdate" = some (Value.vStr "") ∧
      raw.lookup "discount" = some (Value.vInt 15000)) := by
  constructor
  · refine ⟨_, rfl, ?_, ?_⟩
    · exact (c9_normalization_amended.1 [] "U" 3 "m" "t" "sim" "K" itemW9 _
        rfl).1 rfl
    · exact (c9_normalization_amended.1 [] "U" 3 "m" "t" "sim" "K" itemW9 _
        rfl).2.2.2.2.2.2.2.2.2 "15000" 15000 rfl rfl
  · refine ⟨_, rfl, ?_, ?_, ?_⟩
    · exact (c9_normalization_amended.2 [] "U" 3 "kw" "sim" "K" itemW9 _
        rfl).1 rfl
    · exact (c9_normalization_amended.2 [] "U" 3 "kw" "sim" "K" itemW9 _
        rfl).2.2.2.2.2.2.1 rfl
    · exact (c9_normalization_amended.2 [] "U" 3 "kw" "sim" "K" itemW9 _
        rfl).2.2.2.2.2.2.2.2.2 "15000" 15000 rfl rfl

/-- C10: a natural key containing a single quote is queried in its
quote-stripped form but looked up under its original spelling, so it never
resolves: the batch resolver returns no entry for it, and the merge
produces a fresh identity (the freshly generated uuid, first_seen_at = now
and the fixed auto provenance tag), regardless of what the store holds. -/
theorem c10_quote_keys :
    ∀ (cols : List String) (store : List StoreRow) (isbns : List String)
      (k : String), hasQuote k = true →
      ((build_existing_map cols store isbns).lookup k = none) ∧
      (∀ (freshU : String) (now : Int) (mode term sort : String) (it : Item)
        (raw : Drow),
        mergeAutoRow (build_existing_map cols store isbns) freshU now mode
          term sort k it = Except.ok raw →
        raw.lookup "uuid" = some (Value.vStr freshU) ∧
        raw.lookup "created_at" = some (Value.vTime now) ∧
        raw.lookup "created_log" = some (Value.vStr "github_actions_auto")) := by
  intro cols store isbns k hq
  have hnone := build_existing_map_quote_none cols store isbns k hq
  refine ⟨hnone, ?_⟩
  intro freshU now mode term sort it raw h
  obtain ⟨h1, h2, h3, _, _, _⟩ :=
    mergeAutoRow_fresh _ freshU now mode term sort k it raw hnone h
  exact ⟨h1, h2, h3⟩

/-- C10 witness: the key `qk` = "K'1" never resolves even though its
stripped variant "K1" is present in the store, and its merge generates a
fresh identity. -/
theorem c10_witness :
    hasQuote qk = true ∧
    (build_existing_map colsAll storeQ [qk]).lookup qk = none ∧
    (∃ raw, mergeAutoRow (build_existing_map colsAll storeQ [qk]) "F" 9 "m"
      "t" "sim" qk itemQ = Except.ok raw ∧
      raw.lookup "uuid" = some (Value.vStr "F") ∧
      raw.lookup "created_at" = some (Value.vTime 9) ∧
      raw.lookup "created_log" = some (Value.vStr "github_actions_auto")) :=
  ⟨rfl, (c10_quote_keys colsAll storeQ [qk] qk rfl).1,
    ⟨_, rfl, (c10_quote_keys colsAll storeQ [qk] qk rfl).2 "F" 9 "m" "t"
      "sim" itemQ _ rfl⟩⟩

/-- C1 counterexample: the manual path resolves key "K" (its stored uuid
"A" is reused) yet writes first_seen_at = 99 (the current clock, not the
stored 5) and first_seen_provenance "github_actions_manual" (not the
stored "orig"): the claim fails for the manual collection path. -/
theorem c1_counterexample :
    (collect_manual envC1 colsAll storeC1 "kw").map
      (fun tr => tr.map (fun p => p.write.map (fun r =>
        (r.lookup "uuid", r.lookup "created_at", r.lookup "created_log"))))
      = Except.ok [[(some (Value.vStr "A"), some (Value.vTime 99),
          some (Value.vStr "github_actions_manual"))], []] ∧
    storeC1 = [StoreRow.mk "K" "A" 5 "orig" 6 1] ∧
    (99 : Int) ≠ 5 ∧ "github_actions_manual" ≠ "orig" :=
  ⟨rfl, rfl, by decide, by decide⟩

/-- C1 (amended): the batch path copies identity_id, first_seen_at and
first_seen_provenance verbatim from the resolved row; the manual path
copies only identity_id, and always regenerates first_seen_at = now and
first_seen_provenance = "github_actions_manual". -/
theorem c1_identity_amended :
    (∀ (emap : List (String × Existing)) (freshU : String) (now : Int)
      (mode term sort k : String) (it : Item) (raw : Drow) (e : Existing),
      emap.lookup k = some e →
      mergeAutoRow emap freshU now mode term sort k it = Except.ok raw →
      raw.lookup "uuid" = some (Value.vStr e.uuid) ∧
      raw.lookup "created_at" = some (Value.vTime e.created_at) ∧
      raw.lookup "created_log" = some (Value.vStr e.created_log)) ∧
    (∀ (umap : List (String × String)) (u0 : String) (now : Int)
      (kw sort k : String) (it : Item) (raw : Drow) (u : String),
      dictGet umap k = some u →
      mergeManualRow umap u0 now kw sort k it = Except.ok raw →
      raw.lookup "uuid" = some (Value.vStr u) ∧
      raw.lookup "created_at" = some (Value.vTime now) ∧
      raw.lookup "created_log" =
        some (Value.vStr "github_actions_manual")) := by
  constructor
  · intro emap freshU now mode term sort k it raw e he h
    obtain ⟨h1, h2, h3, _, _, _⟩ :=
      mergeAutoRow_resolved emap freshU now mode term sort k it raw e he h
    exact ⟨h1, h2, h3⟩
  · intro umap u0 now kw sort k it raw u hu h
    obtain ⟨h1, _, h3, h4, _⟩ :=
      mergeManualRow_fields umap u0 now kw sort k it raw h
    rw [hu] at h1
    exact ⟨h1, h3, h4⟩

/-- C1 witness: with one resolved row (uuid "A", first seen 5, provenance
"orig"), the batch merge copies all three fields; the manual merge reuses
the uuid but stamps the current clock and the manual tag. -/
theorem c1_witness :
    (∃ raw, mergeAutoRow [("K", Existing.mk "A" 5 "orig")] "F" 99 "m" "t"
      "sim" "K" itemK = Except.ok raw ∧
      raw.lookup "uuid" = some (Value.vStr "A") ∧
      raw.lookup "created_at" = some (Value.vTime 5) ∧
      raw.lookup "created_log" = some (Value.vStr "orig")) ∧
    (∃ raw, mergeManualRow [("K", "A")] "F" 99 "kw" "sim" "K" itemK =
      Except.ok raw ∧
      raw.lookup "uuid" = some (Value.vStr "A") ∧
      raw.lookup "created_at" = some (Value.vTime 99) ∧
      raw.lookup "created_log" =
        some (Value.vStr "github_actions_manual")) := by
  constructor
  · exact ⟨_, rfl, c1_identity_amended.1 [("K", Existing.mk "A" 5 "orig")]
      "F" 99 "m" "t" "sim" "K" itemK _ (Existing.mk "A" 5 "orig") rfl rfl⟩
  · exact ⟨_, rfl, c1_identity_amended.2 [("K", "A")] "F" 99 "kw" "sim" "K"
      itemK _ "A" rfl rfl⟩

/-- C2 counterexample: a transport failure on the first "sim" request makes
the whole manual run fail (`requests.get` raises and nothing catches it),
refuting "never surfaced as a run failure". -/
theorem c2_counterexample :
    envC2.fetch "kw" "sim" 1 100 = FetchResult.net_fail ∧
    collect_manual envC2 colsAll [] "kw" = Except.error () :=
  ⟨rfl, rfl⟩

/-- C2 (amended): a NON-SUCCESS API response terminates only the current
(term, sortOrder) loop — the manual loop ends with a single empty request
trace, the run proceeds to the next sort, and the batch per-sort loop
proceeds to the remaining sorts; a TRANSPORT failure, by contrast,
propagates and aborts the run in BOTH collectors: the manual run, the
batch per-sort loop (and hence every `collect_for_term` iteration), and
the legacy mixed orchestrator all end in an uncaught error. -/
theorem c2_fetch_failure_amended :
    (∀ (env : FetchEnv) (cols : List String) (store : List StoreRow)
      (kw sort : String) (s : Nat) (items : List Item),
      env.fetch kw sort 1 100 = FetchResult.resp s items → s ≠ 200 →
      manualLoop env cols store kw sort =
        Except.ok [PageTrace.mk sort 1 [] []]) ∧
    (∀ (env : FetchEnv) (cols : List String) (store : List StoreRow)
      (kw : String) (s : Nat) (items : List Item), kw ≠ "" →
      env.fetch kw "sim" 1 100 = FetchResult.resp s items → s ≠ 200 →
      collect_manual env cols store kw =
        (manualLoop env cols store kw "date").map
          (fun t2 => PageTrace.mk "sim" 1 [] [] :: t2)) ∧
    (∀ (env : FetchEnv) (cols : List String) (store : List StoreRow)
      (term mode : String) (display : Nat) (sort : String)
      (rest : List String) (s : Nat) (items : List Item),
      env.fetch term sort 1 display = FetchResult.resp s items → s ≠ 200 →
      collectSortsAux env cols store term mode display (sort :: rest) =
        (collectSortsAux env cols store term mode display rest).map
          (fun trs => PageTrace.mk sort 1 [] [] :: trs)) ∧
    (∀ (env : FetchEnv) (cols : List String) (store : List StoreRow)
      (kw : String), kw ≠ "" →
      env.fetch kw "sim" 1 100 = FetchResult.net_fail →
      collect_manual env cols store kw = Except.error ()) ∧
    (∀ (env : FetchEnv) (cols : List String) (store : List StoreRow)
      (term mode : String) (display : Nat) (sort : String)
      (rest : List String),
      env.fetch term sort 1 display = FetchResult.net_fail →
      collectSortsAux env cols store term mode display (sort :: rest) =
        Except.error ()) ∧
    (∀ (env : FetchEnv) (cols : List String) (store : List StoreRow)
      (reqs display batch : Nat) (fb genkw : String)
      (shuffle1 shuffle2 : List String → List String)
      (tokKo : String → List String)
      (tokEn : String → List (String × String))
      (q : Except Unit (List SampleRow)), reqs ≤ 1 →
      env.fetch (sanitize_keyword fb (some genkw))
        (env.sortChoice (sanitize_keyword fb (some genkw))) 1 display =
        FetchResult.net_fail →
      collect env cols store reqs display batch "mixed" fb genkw shuffle1
        shuffle2 tokKo tokEn q = Except.error ()) := by
  refine ⟨?_, ?_, ?_, ?_, ?_, ?_⟩
  · intro env cols store kw sort s items hf hs
    exact manualLoop_non200 env cols store kw sort s items hf hs
  · intro env cols store kw s items hk hf hs
    exact collect_manual_sim_non200 env cols store kw s items hk hf hs
  · intro env cols store term mode display sort rest s items hf hs
    exact collectSortsAux_non200 env cols store term mode display sort rest
      s items hf hs
  · intro env cols store kw hk hf
    exact collect_manual_netfail env cols store kw hk hf
  · intro env cols store term mode display sort rest hf
    exact collectSortsAux_netfail env cols store term mode display sort
      rest hf
  · intro env cols store reqs display batch fb genkw shuffle1 shuffle2
      tokKo tokEn q hreqs hf
    exact collect_mixed_netfail env cols store reqs display batch fb genkw
      shuffle1 shuffle2 tokKo tokEn q hreqs hf

/-- C2 witness: under an environment answering status 500 everywhere, the
manual loop for "sim" ends immediately without a run failure, the run
proceeds to "date", and the batch per-sort loop continues past the failed
sort; under an environment whose "sim" request fails at the transport
level, the batch per-sort loop and the whole mixed run abort with an
error. -/
theorem c2_witness :
    manualLoop envW2 colsAll [] "kw" "sim" =
      Except.ok [PageTrace.mk "sim" 1 [] []] ∧
    collect_manual envW2 colsAll [] "kw" =
      (manualLoop envW2 colsAll [] "kw" "date").map
        (fun t2 => PageTrace.mk "sim" 1 [] [] :: t2) ∧
    collectSortsAux envW2 colsAll [] "t" "m" 100 ["sim"] =
      (collectSortsAux envW2 colsAll [] "t" "m" 100 []).map
        (fun trs => PageTrace.mk "sim" 1 [] [] :: trs) ∧
    collectSortsAux envC2 colsAll [] "t" "m" 100 ["sim", "date"] =
      Except.error () ∧
    collect envC2 colsAll [] 1 100 5 "mixed" "fb" "kw" id id (fun _ => [])
      (fun _ => []) (Except.error ()) = Except.error () :=
  ⟨c2_fetch_failure_amended.1 envW2 colsAll [] "kw" "sim" 500 [] rfl
      (by decide),
    c2_fetch_failure_amended.2.1 envW2 colsAll [] "kw" 500 [] (by decide)
      rfl (by decide),
    c2_fetch_failure_amended.2.2.1 envW2 colsAll [] "t" "m" 100 "sim" []
      500 [] rfl (by decide),
    c2_fetch_failure_amended.2.2.2.2.1 envC2 colsAll [] "t" "m" 100 "sim"
      ["date"] rfl,
    c2_fetch_failure_amended.2.2.2.2.2 envC2 colsAll [] 1 100 5 "fb" "kw"
      id id (fun _ => []) (fun _ => []) (Except.error ())
      (by norm_num) rfl⟩

/-- C3 counterexample: with no version column and two historical rows for
"K" — row A (first seen 10, last seen 100) and row B (first seen 20, last
seen 50) — the resolver picks B (most recent created_at = first_seen_at),
while the spec's last_seen_at rule picks A. -/
theorem c3_counterexample :
    colsNoVer.contains "version" = false ∧
    (build_existing_map colsNoVer storeC3 ["K"]).lookup "K" =
      some (Existing.mk "B" 20 "q") ∧
    spec_last_seen_select storeC3 "K" = some rowA3 ∧
    rowA3.uuid = "A" ∧ ("B" : String) ≠ "A" :=
  ⟨rfl, rfl, rfl, rfl, by decide⟩

/-- C3 (amended): the batch resolver returns at most one row per key; it
selects the row with maximal version when the destination has a version
column and otherwise the row with the most recent created_at
(first_seen_at) — never last_seen_at; the manual resolver applies no
tie-break at all, returning the uuid of some matching row. -/
theorem c3_resolver_amended :
    (∀ (cols : List String) (store : List StoreRow) (isbns : List String),
      ((build_existing_map cols store isbns).map Prod.fst).Nodup) ∧
    (∀ (cols : List String) (store : List StoreRow) (isbns : List String)
      (k : String) (e : Existing), cols.contains "version" = true →
      (build_existing_map cols store isbns).lookup k = some e →
      ∃ r ∈ store, r.isbn = k ∧
        e = Existing.mk r.uuid r.created_at r.created_log ∧
        ∀ r2 ∈ store, r2.isbn = k → r2.version ≤ r.version) ∧
    (∀ (cols : List String) (store : List StoreRow) (isbns : List String)
      (k : String) (e : Existing), cols.contains "version" = false →
      (build_existing_map cols store isbns).lookup k = some e →
      ∃ r ∈ store, r.isbn = k ∧
        e = Existing.mk r.uuid r.created_at r.created_log ∧
        ∀ r2 ∈ store, r2.isbn = k → r2.created_at ≤ r.created_at) ∧
    (∀ (store : List StoreRow) (isbns : List String) (k u : String),
      dictGet (build_uuid_map store isbns) k = some u →
      ∃ r ∈ store, r.isbn = k ∧ r.uuid = u) := by
  refine ⟨build_existing_map_keys_nodup, ?_, ?_, build_uuid_map_mem⟩
  · intro cols store isbns k e hc h
    obtain ⟨r, hr, hik, hee, hmax⟩ :=
      build_existing_map_select cols store isbns k e h
    refine ⟨r, hr, hik, hee, ?_⟩
    intro r2 h2 hk2
    have hmem : "version" ∈ cols := by simpa using hc
    have := hmax r2 h2 hk2
    simpa [orderKey, hmem] using this
  · intro cols store isbns k e hc h
    obtain ⟨r, hr, hik, hee, hmax⟩ :=
      build_existing_map_select cols store isbns k e h
    refine ⟨r, hr, hik, hee, ?_⟩
    intro r2 h2 hk2
    have hmem : "version" ∉ cols := by simpa using hc
    have := hmax r2 h2 hk2
    simpa [orderKey, hmem] using this

/-- C3 witness: on the two-row store the resolver output has distinct keys,
its pick "B" maximizes created_at among the rows for "K", and the manual
resolver returns the uuid of one of the matching rows. -/
theorem c3_witness :
    (((build_existing_map colsNoVer storeC3 ["K"]).map Prod.fst).Nodup) ∧
    (∃ r ∈ storeC3, r.isbn = "K" ∧
      Existing.mk "B" 20 "q" =
        Existing.mk r.uuid r.created_at r.created_log ∧
      ∀ r2 ∈ storeC3, r2.isbn = "K" → r2.created_at ≤ r.created_at) ∧
    (∃ r ∈ storeC3, r.isbn = "K" ∧ r.uuid = "B") :=
  ⟨c3_resolver_amended.1 colsNoVer storeC3 ["K"],
    c3_resolver_amended.2.2.1 colsNoVer storeC3 ["K"] "K"
      (Existing.mk "B" 20 "q") rfl rfl,
    c3_resolver_amended.2.2.2 storeC3 ["K"] "K" "B" rfl⟩

/-- C4: for every term and sort order the manual pagination loop starts at
offset 1, every requested offset satisfies the `start <= 1000` guard, each
continuation step adds 100 to the offset, happens only after a page of
exactly the requested size (100), and keeps the next offset within the
cap; the first undersized page is the last request.  The batch collector
requests only offset 1. -/
theorem c4_pagination :
    (∀ (env : FetchEnv) (cols : List String) (store : List StoreRow)
      (kw sort : String) (tr : List PageTrace), fetchWithinDisplay env →
      manualLoop env cols store kw sort = Except.ok tr →
      (∀ p ∈ tr, p.start ≤ 1000) ∧
      (∀ p rest, tr = p :: rest → p.start = 1) ∧
      List.Chain' pageStep tr ∧
      (∀ (i : Nat) (h1 : i + 1 < tr.length),
        (tr.get ⟨i, Nat.lt_of_succ_lt h1⟩).items.length = 100 ∧
        (tr.get ⟨i + 1, h1⟩).start =
          (tr.get ⟨i, Nat.lt_of_succ_lt h1⟩).start + 100) ∧
      (∀ (i : Nat) (h1 : i < tr.length),
        (tr.get ⟨i, h1⟩).items.length < 100 → i = tr.length - 1)) ∧
    (∀ (env : FetchEnv) (cols : List String) (store : List StoreRow)
      (reqs display : Nat) (term mode : String) (tr : List PageTrace),
      collect_for_term env cols store reqs display term mode = Except.ok tr →
      ∀ p ∈ tr, p.start = 1) := by
  constructor
  · intro env cols store kw sort tr hbd h
    have hpages := manualLoopAux_pages env cols store kw sort 11 1 tr h
    have hchain := manualLoopAux_chain env cols store kw sort 11 1 tr h
    have hD : ∀ (i : Nat) (h1 : i + 1 < tr.length),
        (tr.get ⟨i, Nat.lt_of_succ_lt h1⟩).items.length = 100 ∧
        (tr.get ⟨i + 1, h1⟩).start =
          (tr.get ⟨i, Nat.lt_of_succ_lt h1⟩).start + 100 := by
      intro i h1
      have hstep := List.chain'_iff_get.mp hchain i (by omega)
      have hmem : tr.get ⟨i, Nat.lt_of_succ_lt h1⟩ ∈ tr :=
        List.get_mem tr i (Nat.lt_of_succ_lt h1)
      have hf := (hpages _ hmem).2.2.2
      have hle := fetch_items_len env kw sort _ 100 _ hbd hf
      exact ⟨le_antisymm hle hstep.2.1, hstep.1⟩
    refine ⟨fun p hp => (hpages p hp).2.1, ?_, hchain, hD, ?_⟩
    · intro p rest he
      exact manualLoopAux_head env cols store kw sort 11 1 p rest (he ▸ h)
    · intro i h1 hlt
      by_contra hne
      have h2 : i + 1 < tr.length := by
        rcases Nat.lt_or_ge (i + 1) tr.length with hc | hc
        · exact hc
        · exact absurd (by omega : i = tr.length - 1) hne
      have := (hD i h2).1
      rw [this] at hlt
      exact absurd hlt (by omega)
  · intro env cols store reqs display term mode tr h p hp
    exact ((collectSortsAux_pages env cols store term mode display _ tr
      h).2 p hp).1

/-- C4 witness: under an environment whose every page is empty, the manual
loop for "sim" makes exactly one request, at offset 1, within all bounds. -/
theorem c4_witness :
    (∀ p ∈ [PageTrace.mk "sim" 1 ([] : List Item) ([] : List Drow)],
      p.start ≤ 1000) ∧
    (∀ p rest, [PageTrace.mk "sim" 1 ([] : List Item) ([] : List Drow)] =
      p :: rest → p.start = 1) ∧
    List.Chain' pageStep [PageTrace.mk "sim" 1 [] []] := by
  have hbd : fetchWithinDisplay envEmpty := by
    intro kw sort st d
    simp [envEmpty]
  have h := c4_pagination.1 envEmpty colsAll [] "kw" "sim"
    [PageTrace.mk "sim" 1 [] []] hbd rfl
  exact ⟨h.1, h.2.1, h.2.2.1⟩

/-- C5 counterexample: in legacy mixed mode with the default
`REQS_PER_TERM = 1` the run issues exactly one request — one randomly
chosen sort order at offset 1 — even though the page came back full, so it
iterates neither both sort orders nor the full pagination range. -/
theorem c5_counterexample :
    (collect env5 colsAll [] 1 1 5 "mixed" "fb" "kw" id id (fun _ => [])
      (fun _ => []) (Except.error ())).map
      (fun l => l.map (fun t => (t.1, t.2.map (fun p => (p.sort, p.start)))))
      = Except.ok [("kw", [("sim", 1)])] ∧
    env5.fetch "kw" "sim" 1 1 = FetchResult.resp 200 [itemK] ∧
    (["sim"] : List String) ≠ ["sim", "date"] :=
  ⟨rfl, rfl, by decide⟩

/-- C5 (amended): legacy mixed mode samples exactly one term; for that term
it fetches both sort orders only when `REQS_PER_TERM` is at least 2 and
otherwise one randomly chosen sort order, and in either case it requests
only offset 1 (a single page per sort, not the full pagination range). -/
theorem c5_legacy_mode_amended :
    ∀ (env : FetchEnv) (cols : List String) (store : List StoreRow)
      (reqs display batch : Nat) (fb genkw : String)
      (shuffle1 shuffle2 : List String → List String)
      (tokKo : String → List String)
      (tokEn : String → List (String × String))
      (q : Except Unit (List SampleRow))
      (l : List (String × List PageTrace)),
      collect env cols store reqs display batch "mixed" fb genkw shuffle1
        shuffle2 tokKo tokEn q = Except.ok l →
      l.length = 1 ∧
      ∀ term tr, (term, tr) ∈ l →
        tr.map (fun p => p.sort) =
          (if reqs ≤ 1 then [env.sortChoice term] else ["sim", "date"]) ∧
        ∀ p ∈ tr, p.start = 1 := by
  intro env cols store reqs display batch fb genkw shuffle1 shuffle2 tokKo
    tokEn q l h
  have hm : (match collect_for_term env cols store reqs display
      (sanitize_keyword fb (some genkw)) "mixed" with
    | Except.error e => Except.error e
    | Except.ok tr =>
        Except.ok [(sanitize_keyword fb (some genkw), tr)]) =
      Except.ok l := h
  cases hct : collect_for_term env cols store reqs display
      (sanitize_keyword fb (some genkw)) "mixed" with
  | error e =>
      simp only [hct] at hm
      exact Except.noConfusion hm
  | ok tr0 =>
      simp only [hct] at hm
      injection hm with h2
      subst h2
      refine ⟨rfl, ?_⟩
      intro term tr htr
      rcases List.mem_singleton.mp htr with he
      have ht : term = sanitize_keyword fb (some genkw) :=
        congrArg Prod.fst he
      have htr0 : tr = tr0 := congrArg Prod.snd he
      subst htr0
      subst ht
      have hp := collectSortsAux_pages env cols store
        (sanitize_keyword fb (some genkw)) "mixed" display _ tr hct
      exact ⟨hp.1, fun p hpp => (hp.2 p hpp).1⟩

/-- C5 witness: with `REQS_PER_TERM = 2` the mixed run collects one term
and iterates both sort orders, each at offset 1 only. -/
theorem c5_witness :
    ∃ l, collect envEmpty colsAll [] 2 100 5 "mixed" "fb" "kw" id id
      (fun _ => []) (fun _ => []) (Except.error ()) = Except.ok l ∧
      l.length = 1 ∧
      ∀ term tr, (term, tr) ∈ l →
        tr.map (fun p => p.sort) = ["sim", "date"] ∧
        ∀ p ∈ tr, p.start = 1 := by
  refine ⟨_, rfl, ?_⟩
  have h := c5_legacy_mode_amended envEmpty colsAll [] 2 100 5 "fb" "kw"
    id id (fun _ => []) (fun _ => []) (Except.error ()) _ rfl
  refine ⟨h.1, fun term tr htr => ?_⟩
  obtain ⟨hm, hs⟩ := h.2 term tr htr
  refine ⟨?_, hs⟩
  rw [hm]
  rfl

/-- C6 counterexample: two writes of the same key "K" in one run (sorts
"sim" then "date") observed at the same clock second 50 carry the SAME
version 50 and the same last_seen_at, so version does not strictly
increase across writes of a key. -/
theorem c6_counterexample :
    (collect_manual env6 colsAll [] "kw").map
      (fun tr => tr.map (fun p => p.write.map (fun r =>
        (r.lookup "isbn", r.lookup "version", r.lookup "updated_at"))))
      = Except.ok
        [[(some (Value.vStr "K"), some (Value.vInt 50),
           some (Value.vTime 50))],
         [(some (Value.vStr "K"), some (Value.vInt 50),
           some (Value.vTime 50))]] ∧
    ¬ (50 : Int) < 50 :=
  ⟨rfl, by norm_num⟩

/-- C6 (amended): in BOTH collectors every written row's version equals
the integer clock reading of its page and last_seen_at equals that same
reading, so across any two writes — same run or different runs, manual or
batch/mixed path — versions are NONDECREASING whenever the clock is:
strictly increasing only when the clock second advances, and equal for
writes within the same second. -/
theorem c6_version_amended :
    (∀ (env : FetchEnv) (cols : List String) (store : List StoreRow)
      (kw : String) (tr : List PageTrace),
      collect_manual env cols store kw = Except.ok tr →
      ∀ p ∈ tr, ∀ r ∈ p.write,
        (cols.contains "version" = true →
          r.lookup "version" = some (Value.vInt (env.now p.sort p.start))) ∧
        (cols.contains "updated_at" = true →
          r.lookup "updated_at" =
            some (Value.vTime (env.now p.sort p.start)))) ∧
    (∀ (env : FetchEnv) (cols : List String) (store : List StoreRow)
      (reqs display : Nat) (term mode : String) (tr : List PageTrace),
      collect_for_term env cols store reqs display term mode =
        Except.ok tr →
      ∀ p ∈ tr, ∀ r ∈ p.write,
        (cols.contains "version" = true →
          r.lookup "version" = some (Value.vInt (env.now p.sort p.start))) ∧
        (cols.contains "updated_at" = true →
          r.lookup "updated_at" =
            some (Value.vTime (env.now p.sort p.start)))) ∧
    (∀ (env : FetchEnv) (cols : List String) (r : Drow) (t : Int)
      (env2 : FetchEnv) (cols2 : List String) (r2 : Drow) (t2 : Int),
      writtenWithClock env cols r t → writtenWithClock env2 cols2 r2 t2 →
      cols.contains "version" = true → cols2.contains "version" = true →
      t ≤ t2 →
      ∃ v1 v2, r.lookup "version" = some (Value.vInt v1) ∧
        r2.lookup "version" = some (Value.vInt v2) ∧ v1 ≤ v2) := by
  have key : ∀ (env : FetchEnv) (cols : List String) (store : List StoreRow)
      (kw : String) (tr : List PageTrace),
      collect_manual env cols store kw = Except.ok tr →
      ∀ p ∈ tr, ∀ r ∈ p.write,
        (cols.contains "version" = true →
          r.lookup "version" = some (Value.vInt (env.now p.sort p.start))) ∧
        (cols.contains "updated_at" = true →
          r.lookup "updated_at" =
            some (Value.vTime (env.now p.sort p.start))) := by
    intro env cols store kw tr h p hp r hr
    obtain ⟨raw, j, k, it, hit, hk, hm, hrw⟩ :=
      collect_manual_write_fields env cols store kw tr h p hp r hr
    obtain ⟨_, hv, _, _, hu, _⟩ := mergeManualRow_fields _ _ _ _ _ _ _ _ hm
    constructor
    · intro hc
      rw [hrw, filter_row_lookup_of_contains_true cols "version" hc raw]
      exact hv
    · intro hc
      rw [hrw, filter_row_lookup_of_contains_true cols "updated_at" hc raw]
      exact hu
  have key2 : ∀ (env : FetchEnv) (cols : List String)
      (store : List StoreRow) (reqs display : Nat) (term mode : String)
      (tr : List PageTrace),
      collect_for_term env cols store reqs display term mode =
        Except.ok tr →
      ∀ p ∈ tr, ∀ r ∈ p.write,
        (cols.contains "version" = true →
          r.lookup "version" = some (Value.vInt (env.now p.sort p.start))) ∧
        (cols.contains "updated_at" = true →
          r.lookup "updated_at" =
            some (Value.vTime (env.now p.sort p.start))) := by
    intro env cols store reqs display term mode tr h p hp r hr
    obtain ⟨raw, j, k, it, hit, hk, hm, hrw⟩ :=
      collectSortsAux_write env cols store term mode display _ tr h p hp
        r hr
    obtain ⟨hv, hu⟩ := mergeAutoRow_stamp _ _ _ _ _ _ _ _ _ hm
    have hstart : p.start = 1 :=
      ((collectSortsAux_pages env cols store term mode display _ tr h).2 p
        hp).1
    constructor
    · intro hc
      rw [hrw, filter_row_lookup_of_contains_true cols "version" hc raw,
        hstart]
      exact hv
    · intro hc
      rw [hrw, filter_row_lookup_of_contains_true cols "updated_at" hc raw,
        hstart]
      exact hu
  refine ⟨key, key2, ?_⟩
  intro env cols r t env2 cols2 r2 t2 hw1 hw2 hc hc2 hle
  have hv1 : r.lookup "version" = some (Value.vInt t) := by
    rcases hw1 with ⟨store, kw, tr, p, h, hp, hr, ht⟩ |
      ⟨store, reqs, display, term, mode, tr, p, h, hp, hr, ht⟩
    · rw [ht]
      exact (key env cols store kw tr h p hp r hr).1 hc
    · rw [ht]
      exact (key2 env cols store reqs display term mode tr h p hp r hr).1 hc
  have hv2 : r2.lookup "version" = some (Value.vInt t2) := by
    rcases hw2 with ⟨store, kw, tr, p, h, hp, hr, ht⟩ |
      ⟨store, reqs, display, term, mode, tr, p, h, hp, hr, ht⟩
    · rw [ht]
      exact (key env2 cols2 store kw tr h p hp r2 hr).1 hc2
    · rw [ht]
      exact (key2 env2 cols2 store reqs display term mode tr h p hp
        r2 hr).1 hc2
  exact ⟨t, t2, hv1, hv2, hle⟩

/-- C6 witness: every row written by a concrete successful manual run
carries version 7 and last_seen_at 7, every row written by a concrete
batch run carries version 4 and last_seen_at 4 (the clock readings of
their pages), and across the two runs the earlier clock gives the smaller
version. -/
theorem c6_witness :
    (∃ tr, collect_manual envOne colsAll [] "kw" = Except.ok tr ∧
      ∀ p ∈ tr, ∀ r ∈ p.write,
        r.lookup "version" = some (Value.vInt 7) ∧
        r.lookup "updated_at" = some (Value.vTime 7)) ∧
    (∃ tr, collect_for_term env5 colsAll [] 1 1 "kw" "m" = Except.ok tr ∧
      ∀ p ∈ tr, ∀ r ∈ p.write,
        r.lookup "version" = some (Value.vInt 4) ∧
        r.lookup "updated_at" = some (Value.vTime 4)) ∧
    (writtenWithClock env5 colsAll rowBatch5 4 ∧
      writtenWithClock envOne colsAll rowOneManual 7 ∧
      ∃ v1 v2, rowBatch5.lookup "version" = some (Value.vInt v1) ∧
        rowOneManual.lookup "version" = some (Value.vInt v2) ∧
        v1 ≤ v2) := by
  have hw1 : writtenWithClock env5 colsAll rowBatch5 4 :=
    Or.inr ⟨[], 1, 1, "kw", "m",
      [PageTrace.mk "sim" 1 [itemK] [rowBatch5]],
      PageTrace.mk "sim" 1 [itemK] [rowBatch5], rfl, by simp, by simp, rfl⟩
  have hw2 : writtenWithClock envOne colsAll rowOneManual 7 :=
    Or.inl ⟨[], "kw",
      [PageTrace.mk "sim" 1 [itemK] [rowOneManual],
        PageTrace.mk "date" 1 [] []],
      PageTrace.mk "sim" 1 [itemK] [rowOneManual], rfl, by simp, by simp,
      rfl⟩
  refine ⟨⟨_, rfl, fun p hp r hr => ?_⟩, ⟨_, rfl, fun p hp r hr => ?_⟩,
    hw1, hw2, ?_⟩
  · have h := c6_version_amended.1 envOne colsAll [] "kw" _ rfl p hp r hr
    exact ⟨h.1 rfl, h.2 rfl⟩
  · have h := c6_version_amended.2.1 env5 colsAll [] 1 1 "kw" "m" _ rfl p
      hp r hr
    exact ⟨h.1 rfl, h.2 rfl⟩
  · exact c6_version_amended.2.2 env5 colsAll rowBatch5 4 envOne colsAll
      rowOneManual 7 hw1 hw2 rfl rfl (by norm_num)

end NB
